import Mathlib

/-!
# Verification of the Azure Kaisen round/phase orchestration backend

This development shallowly embeds the Python backend of the repository
(`backend/state.py`, `backend/app.py`, `backend/ai/pdf_engine.py`,
`backend/ai/azure_agent.py`, `backend/ai/gemini_agent.py`) and proves
properties of the embedded operations.

Conventions used throughout:
* Python `dict`s (which preserve insertion order) are modelled as
  association lists `List (κ × α)`; assignment replaces the value in
  place, `setdefault`/fresh insertion appends at the end.
* Machine text is modelled as `String`/`List Char`.  Case folding is
  modelled for ASCII letters (the repository's corpora, rules and
  secrets are ASCII or Korean, and Korean has no letter case).
* `asyncio` locks serialise every state operation in the source, so each
  locked operation is embedded as a pure state-transition function.
-/

/-! ## Character and string helpers

`lowerChar` models Python's `str.lower()` / `re.IGNORECASE` for ASCII
letters (identity on all other characters). -/

def lowerChar (c : Char) : Char :=
  if 65 ≤ c.toNat ∧ c.toNat ≤ 90 then Char.ofNat (c.toNat + 32) else c

theorem toNat_ofNat_valid (n : Nat) (h : n.isValidChar) : (Char.ofNat n).toNat = n := by
  rw [Char.ofNat, dif_pos h]
  simp [Char.ofNatAux, Char.toNat, UInt32.toNat, BitVec.toNat_ofNatLt]

theorem lowerChar_eq_qmark_iff (c : Char) : lowerChar c = '?' ↔ c = '?' := by
  unfold lowerChar
  split_ifs with h
  · have h3 : Char.toNat '?' = 63 := rfl
    constructor
    · intro he
      have hv : (c.toNat + 32).isValidChar := Or.inl (by omega)
      have h2 := congrArg Char.toNat he
      rw [toNat_ofNat_valid _ hv, h3] at h2
      omega
    · intro he
      subst he
      rw [h3] at h
      omega
  · exact Iff.rfl

/-- Case-insensitive "the first list is a prefix of the second". -/
def ciPref : List Char → List Char → Bool
  | [], _ => true
  | _ :: _, [] => false
  | a :: t, b :: s => lowerChar a == lowerChar b && ciPref t s

/-- Case-insensitive substring test (Python `re` search semantics). -/
def occursCI (t : List Char) : List Char → Bool
  | [] => ciPref t []
  | b :: s => ciPref t (b :: s) || occursCI t s

/-- Exact prefix test. -/
def eqPref : List Char → List Char → Bool
  | [], _ => true
  | _ :: _, [] => false
  | a :: t, b :: s => a == b && eqPref t s

/-- Exact (case-sensitive, literal) substring test. -/
def occursEq (t : List Char) : List Char → Bool
  | [] => eqPref t []
  | b :: s => eqPref t (b :: s) || occursEq t s

theorem ciPref_nil_iff (t : List Char) : ciPref t [] = true ↔ t = [] := by
  cases t <;> simp [ciPref]

theorem occursCI_nil_left (s : List Char) : occursCI [] s = true := by
  cases s <;> simp [occursCI, ciPref]

theorem ciPref_of_eqPref (t : List Char) : ∀ s, eqPref t s = true → ciPref t s = true := by
  induction t with
  | nil => intro s _; simp [ciPref]
  | cons a t ih =>
    intro s h
    cases s with
    | nil => simp [eqPref] at h
    | cons b s =>
      simp [eqPref] at h
      simp [ciPref, h.1, ih s h.2]

theorem occursCI_of_occursEq (t : List Char) :
    ∀ s, occursEq t s = true → occursCI t s = true := by
  intro s
  induction s with
  | nil => intro h; simpa [occursEq, occursCI] using ciPref_of_eqPref t [] h
  | cons b s ih =>
    intro h
    simp [occursEq] at h
    rcases h with h | h
    · simp [occursCI, ciPref_of_eqPref _ _ h]
    · simp [occursCI, ih h]

theorem ciPref_append (t : List Char) :
    ∀ s u, ciPref t s = true → ciPref t (s ++ u) = true := by
  induction t with
  | nil => intro s u _; simp [ciPref]
  | cons a t ih =>
    intro s u h
    cases s with
    | nil => simp [ciPref] at h
    | cons b s =>
      simp [ciPref] at h
      simpa [ciPref, h.1] using ih s u h.2

theorem occursCI_append_left (t : List Char) :
    ∀ u v, occursCI t u = true → occursCI t (u ++ v) = true := by
  intro u
  induction u with
  | nil =>
    intro v h
    simp [occursCI] at h
    rw [(ciPref_nil_iff t).mp h]
    simpa using occursCI_nil_left v
  | cons b u ih =>
    intro v h
    simp [occursCI] at h
    rcases h with h | h
    · have := ciPref_append t (b :: u) v h
      simp [occursCI]
      left
      simpa using this
    · simp [occursCI, ih v h]

theorem occursCI_append_right (t : List Char) :
    ∀ u v, occursCI t v = true → occursCI t (u ++ v) = true := by
  intro u
  induction u with
  | nil => intro v h; simpa using h
  | cons b u ih => intro v h; simp [occursCI, ih v h]

theorem occursCI_of_drop (t s : List Char) (n : Nat)
    (h : occursCI t (s.drop n) = true) : occursCI t s = true := by
  have := occursCI_append_right t (s.take n) (s.drop n) h
  rwa [List.take_append_drop] at this

/-- An occurrence of a `'?'`-free, non-empty pattern cannot start inside a
run of `'?'` mask characters. -/
theorem occursCI_allq_elim (t : List Char) (ht : t ≠ []) (hq : '?' ∉ t) :
    ∀ m u, (∀ c ∈ m, c = '?') → occursCI t (m ++ u) = true → occursCI t u = true := by
  intro m
  induction m with
  | nil => intro u _ h; simpa using h
  | cons c m ih =>
    intro u hm h
    have hc : c = '?' := hm c (by simp)
    subst hc
    simp [occursCI] at h
    rcases h with h | h
    · cases t with
      | nil => exact absurd rfl ht
      | cons a t2 =>
        simp [ciPref] at h
        have : a = '?' := (lowerChar_eq_qmark_iff a).mp (by simpa [lowerChar] using h.1)
        exact absurd (this ▸ List.mem_cons_self a t2) hq
    · exact ih u (fun c hc => hm c (by simp [hc])) h

/-- Fuel-based evaluator behind `replaceAll`.  The fuel only serves to
make the recursion structural (so that concrete inputs evaluate inside
`decide`); with fuel at least the length of the text, which `replaceAll`
always supplies, the fuel never runs out. -/
def replaceAllAux (t mask : List Char) : Nat → List Char → List Char
  | _, [] => []
  | 0, c :: rest => c :: rest
  | fuel + 1, c :: rest =>
    if t ≠ [] ∧ ciPref t (c :: rest) = true then
      mask ++ replaceAllAux t mask fuel (rest.drop (t.length - 1))
    else
      c :: replaceAllAux t mask fuel rest

/-- `replaceAll t mask s` is the effect of Python's
`re.compile(re.escape(term), re.IGNORECASE).sub(mask, s)`: replace every
leftmost non-overlapping case-insensitive occurrence of `t` by `mask`. -/
def replaceAll (t mask : List Char) (s : List Char) : List Char :=
  replaceAllAux t mask s.length s

theorem replaceAll_nil (t mask : List Char) : replaceAll t mask [] = [] := rfl

/-- Any case-insensitive prefix match of a `'?'`-free pattern against a
redacted text is already a prefix match against the original text. -/
theorem ciPref_pullback_aux (t2 mask : List Char)
    (hm : ∀ c ∈ mask, c = '?') (hmn : mask ≠ []) :
    ∀ fuel s t, '?' ∉ t →
      ciPref t (replaceAllAux t2 mask fuel s) = true → ciPref t s = true := by
  intro fuel
  induction fuel with
  | zero =>
    intro s t hq h
    cases s with
    | nil => simpa [replaceAllAux] using h
    | cons c rest => simpa [replaceAllAux] using h
  | succ n ih =>
    intro s t hq h
    cases s with
    | nil => simpa [replaceAllAux] using h
    | cons c rest =>
      simp only [replaceAllAux] at h
      by_cases hcond : t2 ≠ [] ∧ ciPref t2 (c :: rest) = true
      · rw [if_pos hcond] at h
        cases t with
        | nil => simp [ciPref]
        | cons a t3 =>
          cases hmask : mask with
          | nil => exact absurd hmask hmn
          | cons m0 mrest =>
            subst hmask
            have hm0 : m0 = '?' := hm m0 (by simp)
            simp [ciPref] at h
            have : a = '?' := (lowerChar_eq_qmark_iff a).mp (by simpa [hm0, lowerChar] using h.1)
            exact absurd (this ▸ List.mem_cons_self a t3) hq
      · rw [if_neg hcond] at h
        cases t with
        | nil => simp [ciPref]
        | cons a t3 =>
          simp [ciPref] at h
          have hq3 : '?' ∉ t3 := fun hmem => hq (List.mem_cons_of_mem a hmem)
          have := ih rest t3 hq3 h.2
          simp [ciPref, h.1, this]

theorem ciPref_pullback (t2 mask : List Char)
    (hm : ∀ c ∈ mask, c = '?') (hmn : mask ≠ []) :
    ∀ s t, '?' ∉ t → ciPref t (replaceAll t2 mask s) = true → ciPref t s = true := by
  intro s t hq h
  exact ciPref_pullback_aux t2 mask hm hmn s.length s t hq h

/-- Any case-insensitive occurrence of a `'?'`-free pattern in a redacted
text pulls back to an occurrence in the original text. -/
theorem occursCI_pullback_aux (t2 mask : List Char)
    (hm : ∀ c ∈ mask, c = '?') (hmn : mask ≠ []) :
    ∀ fuel s t, '?' ∉ t →
      occursCI t (replaceAllAux t2 mask fuel s) = true → occursCI t s = true := by
  intro fuel
  induction fuel with
  | zero =>
    intro s t hq h
    cases s with
    | nil => simpa [replaceAllAux] using h
    | cons c rest => simpa [replaceAllAux] using h
  | succ n ih =>
    intro s t hq h
    cases s with
    | nil => simpa [replaceAllAux] using h
    | cons c rest =>
      simp only [replaceAllAux] at h
      by_cases hcond : t2 ≠ [] ∧ ciPref t2 (c :: rest) = true
      · rw [if_pos hcond] at h
        by_cases ht : t = []
        · subst ht
          exact occursCI_nil_left _
        · have h2 := occursCI_allq_elim t ht hq mask _ hm h
          have h3 := ih _ t hq h2
          have h4 := occursCI_of_drop t rest (t2.length - 1) h3
          simp [occursCI, h4]
      · rw [if_neg hcond] at h
        simp only [occursCI] at h ⊢
        rcases Bool.or_eq_true_iff.mp h with h | h
        · cases t with
          | nil => simp [ciPref]
          | cons a t3 =>
            simp [ciPref] at h
            have hq3 : '?' ∉ t3 := fun hmem => hq (List.mem_cons_of_mem a hmem)
            have := ciPref_pullback_aux t2 mask hm hmn n rest t3 hq3 h.2
            simp [ciPref, h.1, this]
        · simp [ih rest t hq h]

theorem occursCI_pullback (t2 mask : List Char)
    (hm : ∀ c ∈ mask, c = '?') (hmn : mask ≠ []) :
    ∀ s t, '?' ∉ t → occursCI t (replaceAll t2 mask s) = true → occursCI t s = true := by
  intro s t hq h
  exact occursCI_pullback_aux t2 mask hm hmn s.length s t hq h

/-- After `replaceAll t mask s` with an all-`'?'` mask, the (non-empty,
`'?'`-free) pattern `t` no longer occurs anywhere in the text. -/
theorem replaceAll_not_occurs_aux (t : List Char) (ht : t ≠ []) (hq : '?' ∉ t)
    (mask : List Char) (hm : ∀ c ∈ mask, c = '?') (hmn : mask ≠ []) :
    ∀ fuel s, s.length ≤ fuel → occursCI t (replaceAllAux t mask fuel s) = false := by
  intro fuel
  induction fuel with
  | zero =>
    intro s hl
    have hs : s = [] := List.length_eq_zero.mp (Nat.le_zero.mp hl)
    subst hs
    cases t with
    | nil => exact absurd rfl ht
    | cons a t3 => simp [replaceAllAux, occursCI, ciPref]
  | succ n ih =>
    intro s hl
    cases s with
    | nil =>
      cases t with
      | nil => exact absurd rfl ht
      | cons a t3 => simp [replaceAllAux, occursCI, ciPref]
    | cons c rest =>
      simp only [replaceAllAux]
      by_cases hcond : t ≠ [] ∧ ciPref t (c :: rest) = true
      · rw [if_pos hcond]
        by_contra hocc
        have hocc2 : occursCI t (mask ++ replaceAllAux t mask n (rest.drop (t.length - 1))) = true := by
          cases hb : occursCI t (mask ++ replaceAllAux t mask n (rest.drop (t.length - 1)))
          · exact absurd hb hocc
          · rfl
        have h2 := occursCI_allq_elim t ht hq mask _ hm hocc2
        have hlen : (rest.drop (t.length - 1)).length ≤ n := by
          have := List.length_drop (t.length - 1) rest
          simp at hl
          omega
        rw [ih _ hlen] at h2
        exact Bool.false_ne_true h2
      · rw [if_neg hcond]
        by_contra hocc
        have hocc2 : occursCI t (c :: replaceAllAux t mask n rest) = true := by
          cases hb : occursCI t (c :: replaceAllAux t mask n rest)
          · exact absurd hb hocc
          · rfl
        simp only [occursCI] at hocc2
        rcases Bool.or_eq_true_iff.mp hocc2 with h | h
        · cases t with
          | nil => exact absurd rfl ht
          | cons a t3 =>
            simp [ciPref] at h
            have hq3 : '?' ∉ t3 := fun hmem => hq (List.mem_cons_of_mem a hmem)
            have h4 := ciPref_pullback_aux (a :: t3) mask hm hmn n rest t3 hq3 h.2
            have : ciPref (a :: t3) (c :: rest) = true := by simp [ciPref, h.1, h4]
            exact hcond ⟨ht, this⟩
        · have hlen : rest.length ≤ n := by simp at hl; omega
          rw [ih rest hlen] at h
          exact Bool.false_ne_true h

theorem replaceAll_not_occurs (t : List Char) (ht : t ≠ []) (hq : '?' ∉ t)
    (mask : List Char) (hm : ∀ c ∈ mask, c = '?') (hmn : mask ≠ []) :
    ∀ s, occursCI t (replaceAll t mask s) = false := by
  intro s
  exact replaceAll_not_occurs_aux t ht hq mask hm hmn s.length s (le_refl _)

/-- The mask Python builds for a redaction term: `"?" * min(len(term), 3)`. -/
def maskOf (t : List Char) : List Char := List.replicate (min t.length 3) '?'

theorem maskOf_allq (t : List Char) : ∀ c ∈ maskOf t, c = '?' := by
  intro c hc
  exact List.eq_of_mem_replicate hc

theorem maskOf_ne_nil (t : List Char) (ht : t ≠ []) : maskOf t ≠ [] := by
  unfold maskOf
  intro hcon
  have hlen := congrArg List.length hcon
  rw [List.length_replicate] at hlen
  have : t.length = 0 := by
    simp only [List.length_nil] at hlen
    omega
  exact ht (List.length_eq_zero.mp this)

/-- `_redact_terms` without the final `.strip()`: fold Python's sequential
per-term `re.sub` over the term list, skipping empty terms. -/
def redactList (terms : List (List Char)) (s : List Char) : List Char :=
  terms.foldl (fun acc term => if term = [] then acc else replaceAll term (maskOf term) acc) s

theorem redactList_pres (t : List Char) (hq : '?' ∉ t) :
    ∀ terms acc, occursCI t acc = false → occursCI t (redactList terms acc) = false := by
  intro terms
  induction terms with
  | nil => intro acc h; simpa [redactList] using h
  | cons u terms ih =>
    intro acc h
    rw [redactList, List.foldl_cons]
    by_cases hu : u = []
    · rw [if_pos hu]
      exact ih acc h
    · rw [if_neg hu]
      apply ih
      by_contra hocc
      have hocc2 : occursCI t (replaceAll u (maskOf u) acc) = true := by
        cases hb : occursCI t (replaceAll u (maskOf u) acc)
        · exact absurd hb hocc
        · rfl
      have := occursCI_pullback u (maskOf u) (maskOf_allq u) (maskOf_ne_nil u hu) acc t hq hocc2
      rw [h] at this
      exact Bool.false_ne_true this

/-- Redacting a list of terms removes every case-insensitive occurrence of
each non-empty, `'?'`-free term in the list. -/
theorem redactList_not_occurs (t : List Char) (terms : List (List Char))
    (hmem : t ∈ terms) (ht : t ≠ []) (hq : '?' ∉ t) :
    ∀ s, occursCI t (redactList terms s) = false := by
  induction terms with
  | nil => exact absurd hmem (List.not_mem_nil t)
  | cons u terms ih =>
    intro s
    rw [redactList, List.foldl_cons]
    rcases List.mem_cons.mp hmem with heq | htail
    · subst heq
      rw [if_neg ht]
      exact redactList_pres t hq terms _ (replaceAll_not_occurs t ht hq (maskOf t) (maskOf_allq t) (maskOf_ne_nil t ht) s)
    · exact ih htail _

/-- Python `str.strip()` whitespace test, restricted to the ASCII
whitespace characters that occur in this code base. -/
def isSpaceChar (c : Char) : Bool :=
  c = ' ' || c = '\t' || c = '\n' || c = '\r' || c = '\x0b' || c = '\x0c'

/-- Python `str.strip()`. -/
def stripChars (l : List Char) : List Char :=
  ((l.dropWhile isSpaceChar).reverse.dropWhile isSpaceChar).reverse

theorem occursCI_stripChars (t l : List Char)
    (h : occursCI t (stripChars l) = true) : occursCI t l = true := by
  have h1 : l.dropWhile isSpaceChar =
      ((l.dropWhile isSpaceChar).reverse.takeWhile isSpaceChar
        ++ (l.dropWhile isSpaceChar).reverse.dropWhile isSpaceChar).reverse := by
    rw [List.takeWhile_append_dropWhile, List.reverse_reverse]
  have h2 : l = l.takeWhile isSpaceChar ++ l.dropWhile isSpaceChar :=
    (List.takeWhile_append_dropWhile (p := isSpaceChar) (l := l)).symm
  rw [h2, h1, List.reverse_append]
  apply occursCI_append_right
  apply occursCI_append_left
  exact h

/-! ## `backend/ai/pdf_engine.py` — the fallback hint engine

`_WORD_RE = [A-Za-zÀ-ÖØ-öø-ÿ가-힣0-9]{2,}`: maximal runs of "word"
characters of length at least two, lowercased. -/

def isWordChar (c : Char) : Bool :=
  (65 ≤ c.toNat && c.toNat ≤ 90) || (97 ≤ c.toNat && c.toNat ≤ 122) ||
  (48 ≤ c.toNat && c.toNat ≤ 57) ||
  (0xC0 ≤ c.toNat && c.toNat ≤ 0xD6) || (0xD8 ≤ c.toNat && c.toNat ≤ 0xF6) ||
  (0xF8 ≤ c.toNat && c.toNat ≤ 0xFF) || (0xAC00 ≤ c.toNat && c.toNat ≤ 0xD7A3)

/-- Fuel-based worker behind `splitRuns` (fuel only makes the recursion
structural; `splitRuns` supplies fuel at least the length of the list). -/
def splitRunsAux : Nat → List Char → List (List Char)
  | _, [] => []
  | 0, _ :: _ => []
  | fuel + 1, c :: rest =>
    if isWordChar c then
      ((c :: rest).takeWhile isWordChar) :: splitRunsAux fuel ((c :: rest).dropWhile isWordChar)
    else
      splitRunsAux fuel rest

/-- Maximal runs of word characters, as found left-to-right by
`re.finditer` with a greedy character-class pattern. -/
def splitRuns (l : List Char) : List (List Char) :=
  splitRunsAux l.length l

/-- `PdfHintEngine._extract_keywords`. -/
def extractKeywords (l : List Char) : List (List Char) :=
  ((splitRuns l).filter (fun r => 2 ≤ r.length)).map (fun r => r.map lowerChar)

/-- The rules object loaded from `rules.json` (its `noise` and
`penalties` entries are never read by the embedded operations and are
omitted). -/
structure Rules where
  forbidden : List String
  spoilers : List String
deriving DecidableEq

def sentenceTokens (s : String) : List (List Char) := extractKeywords s.toList

/-- Membership in `keyword_index.keys()`: some sentence has the token. -/
def corpusHasToken (sentences : List String) (tok : List Char) : Bool :=
  sentences.any (fun sn => tok ∈ sentenceTokens sn)

/-- `_collect_candidate_indices`: the sorted union of the per-token index
entries is exactly the ascending list of sentence indices whose token set
meets the secret's or the submission's tokens. -/
def collectCandidates (sentences : List String) (secretToks subToks : List (List Char)) :
    List Nat :=
  (sentences.enum.filter
    (fun p => (secretToks ++ subToks).any (fun tok => tok ∈ sentenceTokens p.2))).map
    (fun p => p.1)

/-- Floor of the base-2 logarithm, structurally recursive model of
Python's `int(math.log2(n))` for positive `n` (fuel-based so that it
evaluates inside `decide`). -/
def log2Aux : Nat → Nat → Nat
  | 0, _ => 0
  | fuel + 1, n => if 2 ≤ n then log2Aux fuel (n / 2) + 1 else 0

def log2floor (n : Nat) : Nat := log2Aux n n

/-- One iteration of the `_pick_best_sentence` loop. -/
def pickStep (sentences : List String) (spoilersLower : List (List Char))
    (secretToks subToks : List (List Char)) (acc : Option String × Nat) (idx : Nat) :
    Option String × Nat :=
  match sentences.get? idx with
  | none => acc
  | some sentence =>
    let tokens := (sentenceTokens sentence).dedup
    if tokens.any (fun tok => tok ∈ secretToks) then acc
    else if tokens.any (fun tok => tok ∈ spoilersLower) then acc
    else
      let matchScore :=
        (if subToks ≠ [] then (tokens.filter (fun tok => tok ∈ subToks)).length else 0) +
        (if secretToks ≠ [] then 3 * (tokens.filter (fun tok => tok ∈ secretToks)).length / 2
         else 0)
      let positionalBonus := 5 - log2floor (idx + 2)
      let totalScore := matchScore + positionalBonus
      if acc.2 < totalScore then (some sentence, totalScore) else acc

/-- `_pick_best_sentence`. -/
def pickBestSentence (sentences : List String) (spoilersLower : List (List Char))
    (cands : List Nat) (secretToks subToks : List (List Char)) : Option String × Nat :=
  cands.foldl (pickStep sentences spoilersLower secretToks subToks) (none, 0)

/-- `_fallback_hint` (the two fixed template messages). -/
def fallbackHint (submittedWord : String) (previousRoundSummaries : List String) : String :=
  let message :=
    if submittedWord ≠ "" then
      "제출한 단어 \x27" ++ submittedWord ++
        "\x27에서 파생된 주제를 다시 살펴보세요. 자료의 다른 장에서 간접적인 실마리를 찾을 수 있습니다."
    else
      "이번에는 단서를 찾지 못했어요. 다음 턴에는 자료에서 떠오르는 핵심 개념을 짚어보세요."
  if previousRoundSummaries ≠ [] then
    message ++ " 이전 라운드의 요약을 참고하면 흐름을 이어가는데 도움이 됩니다."
  else
    message

/-- `_derive_flags`. -/
def deriveFlags (sentences : List String) (rules : Rules)
    (secretToks subToks : List (List Char)) (hintText : String) : List String :=
  let forbiddenLower := rules.forbidden.map (fun t => t.toList.map lowerChar)
  let spoilersLower := rules.spoilers.map (fun t => t.toList.map lowerChar)
  let f1 := if secretToks ≠ [] ∧ subToks.any (fun tok => tok ∈ secretToks) then
      ["too_direct"] else []
  let f2 := f1 ++ (if subToks.any (fun tok => tok ∈ forbiddenLower) then ["forbidden"] else [])
  let f3 := f2 ++ (if subToks.any (fun tok => tok ∈ spoilersLower) then ["too_direct"] else [])
  let f4 := f3 ++ (if subToks = [] then ["off_topic"]
    else if subToks.all (fun tok => !(corpusHasToken sentences tok)) then ["off_topic"]
    else [])
  if spoilersLower.any (fun term => occursCI term hintText.toList) ∧ "too_direct" ∉ f4 then
    f4 ++ ["too_direct"]
  else
    f4

structure HintResult where
  hint : String
  ai_score_suggestion : Nat
  flags : List String
deriving DecidableEq

/-- The `(best_sentence, relevance)` pair `generate_hint` computes. -/
def bestSentence (sentences : List String) (rules : Rules)
    (secret submittedWord : String) : Option String × Nat :=
  let secretToks := extractKeywords secret.toList
  let subToks := extractKeywords submittedWord.toList
  pickBestSentence sentences (rules.spoilers.map (fun t => t.toList.map lowerChar))
    (collectCandidates sentences secretToks subToks) secretToks subToks

/-- `PdfHintEngine.generate_hint`.  The `if not best_sentence` truthiness
test treats both `None` and the empty string as falsy. -/
def generate_hint (sentences : List String) (rules : Rules)
    (secret submittedWord : String) (previousRoundSummaries : List String) : HintResult :=
  let secretToks := extractKeywords secret.toList
  let subToks := extractKeywords submittedWord.toList
  let best := bestSentence sentences rules secret submittedWord
  if best.1.getD "" = "" then
    let hintText := fallbackHint submittedWord previousRoundSummaries
    ⟨hintText, if submittedWord = "" then 0 else 1,
      deriveFlags sentences rules secretToks subToks hintText⟩
  else
    let sentence := best.1.getD ""
    let hintText : String :=
      ⟨stripChars (redactList (secret.toList :: rules.spoilers.map (fun t => t.toList))
        sentence.toList)⟩
    ⟨hintText, if 1 < best.2 then 2 else 1,
      deriveFlags sentences rules secretToks subToks hintText⟩

theorem toList_mk (l : List Char) : (⟨l⟩ : String).toList = l := rfl

/-- Helper: in the redacted branch, no non-empty `'?'`-free term of the
redaction list occurs (case-insensitively) in the produced hint. -/
theorem generate_hint_redacted_term_free (sentences : List String) (rules : Rules)
    (secret submittedWord : String) (prev : List String)
    (hbranch : (bestSentence sentences rules secret submittedWord).1.getD "" ≠ "")
    (t : List Char)
    (hmem : t ∈ secret.toList :: rules.spoilers.map (fun x => x.toList))
    (ht : t ≠ []) (hq : '?' ∉ t) :
    occursCI t (generate_hint sentences rules secret submittedWord prev).hint.toList
      = false := by
  have hhint : (generate_hint sentences rules secret submittedWord prev).hint =
      ⟨stripChars (redactList (secret.toList :: rules.spoilers.map (fun x => x.toList))
        ((bestSentence sentences rules secret submittedWord).1.getD "").toList)⟩ := by
    unfold generate_hint
    rw [if_neg hbranch]
  rw [hhint, toList_mk]
  cases hb : occursCI t (stripChars
      (redactList (secret.toList :: rules.spoilers.map (fun x => x.toList))
        ((bestSentence sentences rules secret submittedWord).1.getD "").toList)) with
  | false => rfl
  | true =>
    exfalso
    have h2 := occursCI_stripChars t _ hb
    rw [redactList_not_occurs t _ hmem ht hq] at h2
    exact Bool.false_ne_true h2

/-- C4 (counterexample): as stated, the claim is false.  Two concrete
refutations: (a) with an empty corpus and the submitted word equal to the
secret `"fusion"`, the "submitted something" template message embeds the
submitted word verbatim, so the hint contains the literal secret;
(b) with the secret `"?a"` (which contains the mask character), redacting
the spoiler `"b"` inside the chosen sentence `"ba"` *creates* an
occurrence of the literal secret in the redacted hint. -/
theorem claim_C4_counterexample :
    occursEq "fusion".toList
      (generate_hint [] ⟨[], []⟩ "fusion" "fusion" []).hint.toList = true ∧
    occursEq "?a".toList
      (generate_hint ["ba"] ⟨[], ["b"]⟩ "?a" "ba" []).hint.toList = true := by
  constructor
  · decide
  · decide

/-- C4 (amended): whenever `generate_hint` takes the redacted-sentence
branch (a best sentence was selected), the returned hint contains no
case-insensitive occurrence — hence also no literal occurrence — of the
secret string, nor of any configured spoiler term, provided the secret
and the spoiler terms are non-empty and do not contain the mask
character `'?'`.  (The two template branches do not carry this
guarantee: the "submitted something" template embeds the submitted word
verbatim.) -/
theorem claim_C4_amended (sentences : List String) (rules : Rules)
    (secret submittedWord : String) (prev : List String)
    (hs1 : secret.toList ≠ []) (hs2 : '?' ∉ secret.toList)
    (hsp : ∀ sp ∈ rules.spoilers, sp.toList ≠ [] ∧ '?' ∉ sp.toList)
    (hbranch : (bestSentence sentences rules secret submittedWord).1.getD "" ≠ "") :
    occursCI secret.toList
        (generate_hint sentences rules secret submittedWord prev).hint.toList = false ∧
    (∀ sp ∈ rules.spoilers,
      occursCI sp.toList
        (generate_hint sentences rules secret submittedWord prev).hint.toList = false) ∧
    occursEq secret.toList
        (generate_hint sentences rules secret submittedWord prev).hint.toList = false := by
  have hsecret := generate_hint_redacted_term_free sentences rules secret submittedWord prev
    hbranch secret.toList (by simp) hs1 hs2
  refine ⟨hsecret, ?_, ?_⟩
  · intro sp hspmem
    exact generate_hint_redacted_term_free sentences rules secret submittedWord prev
      hbranch sp.toList
      (by simp only [List.mem_cons, List.mem_map]; exact Or.inr ⟨sp, hspmem, rfl⟩)
      (hsp sp hspmem).1 (hsp sp hspmem).2
  · cases hb : occursEq secret.toList
        (generate_hint sentences rules secret submittedWord prev).hint.toList with
    | false => rfl
    | true =>
      exfalso
      have := occursCI_of_occursEq secret.toList _ hb
      rw [hsecret] at this
      exact Bool.false_ne_true this

/-- C4 (witness): concrete instantiation of `claim_C4_amended`.  The
secret `"react"` does not appear as a whole token of the sentence, so the
sentence is selected; redaction then strips the embedded occurrence in
`"Reactor"`. -/
theorem claim_C4_amended_witness :
    (bestSentence ["Reactor cores heat quickly."] ⟨[], []⟩ "react" "reactor").1.getD "" ≠ ""
    ∧ occursCI "react".toList
        (generate_hint ["Reactor cores heat quickly."] ⟨[], []⟩ "react" "reactor" []).hint.toList
        = false := by
  refine ⟨by decide, ?_⟩
  exact (claim_C4_amended ["Reactor cores heat quickly."] ⟨[], []⟩ "react" "reactor" []
    (by decide) (by decide) (by intro sp hsp; simp at hsp) (by decide)).1

/-! ## Association lists

Python `dict`s preserve insertion order; assignment to an existing key
replaces the value in place, a new key is appended at the end. -/

def alookup {κ α : Type} [DecidableEq κ] (k : κ) : List (κ × α) → Option α
  | [] => none
  | (k2, v) :: rest => if k2 = k then some v else alookup k rest

def aset {κ α : Type} [DecidableEq κ] (k : κ) (v : α) : List (κ × α) → List (κ × α)
  | [] => [(k, v)]
  | (k2, v2) :: rest => if k2 = k then (k2, v) :: rest else (k2, v2) :: aset k v rest

def aupdate {κ α : Type} [DecidableEq κ] (k : κ) (f : α → α) : List (κ × α) → List (κ × α)
  | [] => []
  | (k2, v) :: rest => if k2 = k then (k2, f v) :: rest else (k2, v) :: aupdate k f rest

/-! ## `backend/ai/gemini_agent.py` -/

structure GeminiPlayerResult where
  user : String
  input : String
  score : Int
  hint : String
deriving DecidableEq

structure GeminiRoundEvaluation where
  results : List GeminiPlayerResult
deriving DecidableEq

/-- The `GeminiPlayerResult` dataclass has no `flags` field at all, so
the set of flags carried by an evaluation entry is always empty. -/
def geminiResultFlags (_ : GeminiPlayerResult) : List String := []

/-- The `{word, flags}` view of a `Submission` that `finalize_round`
sends to the evaluator. -/
structure SubPayload where
  word : String
  flags : List String
deriving DecidableEq

/-- The `{id, name, connected}` view of a `Player` that `finalize_round`
sends to the evaluator. -/
structure PlayerPayload where
  id : String
  name : String
  connected : Bool
deriving DecidableEq

/-- `GeminiAgent._fallback_evaluation`. -/
def gemini_fallback_evaluation (secret : String)
    (submissions : List (String × SubPayload)) (player_order : List PlayerPayload) :
    GeminiRoundEvaluation :=
  { results := player_order.map (fun p =>
      let word := ((alookup p.id submissions).map (fun sp => sp.word)).getD ""
      { user := p.name, input := word,
        score := if word ≠ "" then 50 else 0,
        hint := "This is a fallback hint." }) }

/-- `GeminiAgent.evaluate_round`.  The remote call together with
response parsing is modelled by the `remote` argument: `.ok` for a
successfully parsed response, `.error` when any exception is raised
(network error, non-2xx status, malformed payload, missing fields,
timeout); the `try/except` catches every exception and falls through to
the fallback, and the fallback also runs when the agent is disabled. -/
def gemini_evaluate_round (gemini_enabled hints_enabled : Bool)
    (remote : Except String GeminiRoundEvaluation) (secret : String)
    (submissions : List (String × SubPayload)) (player_order : List PlayerPayload) :
    GeminiRoundEvaluation :=
  if gemini_enabled && hints_enabled then
    match remote with
    | .ok ev => ev
    | .error _ => gemini_fallback_evaluation secret submissions player_order
  else
    gemini_fallback_evaluation secret submissions player_order

theorem gemini_fallback_length (secret : String) (submissions : List (String × SubPayload))
    (player_order : List PlayerPayload) :
    (gemini_fallback_evaluation secret submissions player_order).results.length
      = player_order.length := by
  simp [gemini_fallback_evaluation]

/-- C5: if the remote evaluator raises any exception, `evaluate_round`
returns the fallback evaluation: exactly one result entry per player in
`player_order` (in order, matched by name), and no entry carries any
flag — in particular none is flagged `ai_missing`. -/
theorem claim_C5_remote_failure_falls_back (gemini_enabled hints_enabled : Bool)
    (err : String) (secret : String) (submissions : List (String × SubPayload))
    (player_order : List PlayerPayload) :
    gemini_evaluate_round gemini_enabled hints_enabled (.error err)
        secret submissions player_order
      = gemini_fallback_evaluation secret submissions player_order ∧
    (gemini_evaluate_round gemini_enabled hints_enabled (.error err)
        secret submissions player_order).results.length = player_order.length ∧
    (∀ i (h : i < player_order.length),
      ((gemini_evaluate_round gemini_enabled hints_enabled (.error err)
          secret submissions player_order).results.get
        ⟨i, by simpa [gemini_evaluate_round, gemini_fallback_length] using h⟩).user
        = (player_order.get ⟨i, h⟩).name) ∧
    (∀ res ∈ (gemini_evaluate_round gemini_enabled hints_enabled (.error err)
        secret submissions player_order).results,
      "ai_missing" ∉ geminiResultFlags res) := by
  have hfb : gemini_evaluate_round gemini_enabled hints_enabled (.error err)
      secret submissions player_order
      = gemini_fallback_evaluation secret submissions player_order := by
    unfold gemini_evaluate_round
    by_cases hb : (gemini_enabled && hints_enabled) = true
    · rw [if_pos hb]
    · rw [if_neg hb]
  refine ⟨hfb, by rw [hfb]; exact gemini_fallback_length _ _ _, ?_, ?_⟩
  · intro i h
    simp only [hfb, gemini_fallback_evaluation, List.get_eq_getElem, List.getElem_map]
  · intro res _
    simp [geminiResultFlags]

/-- C5 (witness): a concrete timed-out remote call with one player. -/
theorem claim_C5_remote_failure_falls_back_witness :
    ((gemini_evaluate_round true true (Except.error "timeout") "gravity"
        [("p1", ⟨"word", []⟩)] [⟨"p1", "P1", true⟩]).results.get
      ⟨0, by decide⟩).user = "P1" := by
  have h := (claim_C5_remote_failure_falls_back true true "timeout" "gravity"
    [("p1", ⟨"word", []⟩)] [⟨"p1", "P1", true⟩]).2.2.1 0 (by decide)
  simpa using h

/-! ## `backend/ai/azure_agent.py` — `_fallback_evaluation` -/

structure AzurePlayerResult where
  hint : String
  score : Int
  flags : List String
  metaFallback : Bool
deriving DecidableEq

structure SummaryEntry where
  playerId : String
  name : String
  word : String
  score : Int
  flags : List String
deriving DecidableEq

structure AzureRoundEvaluation where
  players : List (String × AzurePlayerResult)
  summary : List SummaryEntry
  discussion : String
  source : String
deriving DecidableEq

/-- Python `word.strip().lower()`. -/
def normWord (w : String) : String := ⟨(stripChars w.toList).map lowerChar⟩

def bumpCount (k : String) : List (String × Nat) → List (String × Nat)
  | [] => [(k, 1)]
  | (k2, v) :: rest => if k2 = k then (k2, v + 1) :: rest else (k2, v) :: bumpCount k rest

/-- The `normalized_counts` dict of `_fallback_evaluation`. -/
def buildCounts (submissions : List (String × SubPayload)) : List (String × Nat) :=
  submissions.foldl
    (fun acc kv => let w := normWord kv.2.word; if w ≠ "" then bumpCount w acc else acc) []

/-- `", ".join(previous_round_words)` where `previous_round_words` keeps
the truthy submitted words. -/
def azureJoinedPrev (submissions : List (String × SubPayload)) : String :=
  String.intercalate ", " ((submissions.map (fun kv => kv.2.word)).filter (fun w => w ≠ ""))

/-- The score arithmetic of `AzureAgent._fallback_evaluation`, exactly as
the source mutates `score`. -/
def azureFallbackScore (hintFlags : List String) (word : String)
    (counts : List (String × Nat)) : Int :=
  let score0 : Int := if word ≠ "" then 1 else 0
  let score1 : Int := if word ≠ "" ∧ (alookup (normWord word) counts).getD 0 = 1 then
      score0 + 1 else score0
  let score2 : Int := if "too_direct" ∉ hintFlags ∧ word ≠ "" then score1 + 1 else score1
  let score3 : Int := if "forbidden" ∈ hintFlags then score2 - 1 else score2
  max score3 0

/-- `submissions.get(player_id, {}).get("word", "")`. -/
def azureWordOf (submissions : List (String × SubPayload)) (p : PlayerPayload) : String :=
  ((alookup p.id submissions).map (fun sp => sp.word)).getD ""

/-- The flags the fallback computes for a player (those of the hint). -/
def azureFlagsOf (sentences : List String) (rules : Rules) (secret : String)
    (submissions : List (String × SubPayload)) (p : PlayerPayload) : List String :=
  (generate_hint sentences rules secret (azureWordOf submissions p)
    [azureJoinedPrev submissions]).flags

/-- One player's result and summary entry in `_fallback_evaluation`. -/
def azureFallbackEntry (sentences : List String) (rules : Rules) (secret : String)
    (counts : List (String × Nat)) (joined : String)
    (submissions : List (String × SubPayload)) (p : PlayerPayload) :
    AzurePlayerResult × SummaryEntry :=
  let word := azureWordOf submissions p
  let hintResult := generate_hint sentences rules secret word [joined]
  let sc := azureFallbackScore hintResult.flags word counts
  ({ hint := hintResult.hint, score := sc, flags := hintResult.flags, metaFallback := true },
   { playerId := p.id, name := p.name, word := if word ≠ "" then word else "(미제출)",
     score := sc, flags := hintResult.flags })

/-- `AzureAgent._fallback_evaluation`. -/
def azure_fallback_evaluation (sentences : List String) (rules : Rules) (secret : String)
    (submissions : List (String × SubPayload)) (player_order : List PlayerPayload) :
    AzureRoundEvaluation :=
  let counts := buildCounts submissions
  let joined := azureJoinedPrev submissions
  { players := player_order.foldl
      (fun acc p => aset p.id (azureFallbackEntry sentences rules secret counts joined submissions p).1 acc) [],
    summary := player_order.map
      (fun p => (azureFallbackEntry sentences rules secret counts joined submissions p).2),
    discussion := "PDF 기반 힌트 엔진이 자동으로 점수와 힌트를 산출했습니다.",
    source := "fallback" }

/-- The suggested-score formula in the words of the claim: start at 1 if
a word was submitted, +1 for a unique submission, +1 if not flagged
`too_direct`, −1 if flagged `forbidden`, clamped at zero. -/
def specFallbackScore (submitted unique notTooDirect forbidden : Bool) : Int :=
  max 0 ((if submitted then 1 else 0) + (if unique then 1 else 0) +
    (if notTooDirect then 1 else 0) - (if forbidden then 1 else 0))

theorem bumpCount_get (k w : String) :
    ∀ acc, (alookup w (bumpCount k acc)).getD 0
      = (alookup w acc).getD 0 + (if k = w then 1 else 0) := by
  intro acc
  induction acc with
  | nil =>
    by_cases hkw : k = w
    · subst hkw
      simp [bumpCount, alookup]
    · simp [bumpCount, alookup, hkw]
  | cons hd tl ih =>
    obtain ⟨k2, v⟩ := hd
    by_cases h2 : k2 = k
    · subst h2
      by_cases hkw : k2 = w
      · subst hkw
        simp [bumpCount, alookup]
      · simp [bumpCount, alookup, hkw]
    · simp only [bumpCount, if_neg h2]
      by_cases hkw : k2 = w
      · subst hkw
        simp [alookup]
        intro hcon
        exact absurd hcon.symm h2
      · simp [alookup, hkw, ih]

theorem buildCounts_get_aux (w : String) :
    ∀ (subs : List (String × SubPayload)) (acc : List (String × Nat)),
      (alookup w (subs.foldl
        (fun acc kv => let x := normWord kv.2.word; if x ≠ "" then bumpCount x acc else acc)
        acc)).getD 0
      = (alookup w acc).getD 0 +
        (if w = "" then 0 else subs.countP (fun kv => normWord kv.2.word = w)) := by
  intro subs
  induction subs with
  | nil => intro acc; simp
  | cons kv tl ih =>
    intro acc
    rw [List.foldl_cons, List.countP_cons]
    by_cases hx : normWord kv.2.word ≠ ""
    · simp only [if_pos hx, ih (bumpCount (normWord kv.2.word) acc), bumpCount_get]
      by_cases hw : w = ""
      · subst hw
        have : normWord kv.2.word ≠ "" := hx
        simp [this]
      · by_cases heq : normWord kv.2.word = w
        · simp [heq, hw]
          omega
        · simp [heq, hw]
    · push_neg at hx
      have hstep : (let x := normWord kv.2.word
          if x ≠ "" then bumpCount x acc else acc) = acc := by
        simp [hx]
      rw [hstep, ih acc]
      by_cases hw : w = ""
      · simp [hw]
      · have hne : ¬(normWord kv.2.word = w) := by
          rw [hx]
          exact fun hc => hw hc.symm
        simp [hw, hne]

/-- `normalized_counts.get(w, 0)` equals the number of submissions whose
normalised word is `w` (and is `0` for the empty string, which is never
inserted as a key). -/
theorem buildCounts_get (w : String) (subs : List (String × SubPayload)) :
    (alookup w (buildCounts subs)).getD 0
      = if w = "" then 0 else subs.countP (fun kv => normWord kv.2.word = w) := by
  have h := buildCounts_get_aux w subs []
  simpa [buildCounts, alookup] using h

/-- The fallback score as the source computes it (mutating `score` with
dict-based uniqueness counts) equals the claim-style formula, with the
uniqueness bonus expressed by counting equal normalised submissions and
with the "not `too_direct`" bonus conditioned on having submitted. -/
theorem azureFallbackScore_eq_spec (flags : List String) (word : String)
    (subs : List (String × SubPayload)) :
    azureFallbackScore flags word (buildCounts subs)
      = specFallbackScore (decide (word ≠ ""))
          (decide (normWord word ≠ "" ∧
            subs.countP (fun kv => normWord kv.2.word = normWord word) = 1))
          (decide (word ≠ "" ∧ "too_direct" ∉ flags))
          (decide ("forbidden" ∈ flags)) := by
  have hiff : (normWord word ≠ "" ∧
      subs.countP (fun kv => normWord kv.2.word = normWord word) = 1)
      ↔ (word ≠ "" ∧ (alookup (normWord word) (buildCounts subs)).getD 0 = 1) := by
    rw [buildCounts_get]
    constructor
    · rintro ⟨hn, hc⟩
      refine ⟨fun hw => hn (by rw [hw]; rfl), ?_⟩
      rw [if_neg hn]
      exact hc
    · rintro ⟨hw, hc⟩
      by_cases hn : normWord word = ""
      · rw [if_pos hn] at hc
        exact absurd hc (by decide)
      · rw [if_neg hn] at hc
        exact ⟨hn, hc⟩
  have hdecide : decide (normWord word ≠ "" ∧
        subs.countP (fun kv => normWord kv.2.word = normWord word) = 1)
      = decide (word ≠ "" ∧ (alookup (normWord word) (buildCounts subs)).getD 0 = 1) :=
    decide_eq_decide.mpr hiff
  unfold azureFallbackScore specFallbackScore
  rw [hdecide]
  by_cases hsub : word = "" <;>
    by_cases hget : (alookup (normWord word) (buildCounts subs)).getD 0 = 1 <;>
      by_cases ht : "too_direct" ∈ flags <;>
        by_cases hf : "forbidden" ∈ flags <;>
          simp [hsub, hget, ht, hf] <;> decide

/-- C8 (counterexample): as stated, the claim fails on both fallback
evaluators.  (a) In the Azure fallback a player who submitted nothing
gets score `0`, while the claimed formula — which grants the
"not `too_direct`" bonus independently of having submitted — yields `1`
(the flags of a missing submission are `["off_topic"]`, so neither
`too_direct` nor `forbidden` applies).  (b) The Gemini fallback assigns
score `50` to any submitted word, a value the claimed
`max(0, base)` formula (bounded by `3`) can never produce. -/
theorem claim_C8_counterexample :
    ((azure_fallback_evaluation [] ⟨[], []⟩ "azure" [] [⟨"p1", "P1", true⟩]).summary.map
      (fun e => e.score) = [0]) ∧
    "too_direct" ∉ azureFlagsOf [] ⟨[], []⟩ "azure" [] ⟨"p1", "P1", true⟩ ∧
    "forbidden" ∉ azureFlagsOf [] ⟨[], []⟩ "azure" [] ⟨"p1", "P1", true⟩ ∧
    specFallbackScore false false true false = 1 ∧
    ((gemini_fallback_evaluation "gravity" [("p1", ⟨"gravity", []⟩)]
        [⟨"p1", "P1", true⟩]).results.map (fun r => r.score) = [50]) ∧
    (∀ b1 b2 b3 b4 : Bool, specFallbackScore b1 b2 b3 b4 ≠ 50) := by
  refine ⟨by decide, by decide, by decide, by decide, by decide, by decide⟩

/-- C8 (amended): in the Azure agent's fallback evaluation, the i-th
summary entry's score equals `max(0, base)` where `base` starts at 1 if
the player submitted a word, +1 if the normalised word is non-empty and
exactly one submission this round normalises to it, +1 if the player
submitted *and* the result is not flagged `too_direct`, −1 if flagged
`forbidden`.  (The Gemini agent's fallback instead scores a flat 50/0
and is not covered by this formula.) -/
theorem claim_C8_amended (sentences : List String) (rules : Rules) (secret : String)
    (subs : List (String × SubPayload)) (po : List PlayerPayload)
    (i : Nat) (h : i < po.length) :
    (azure_fallback_evaluation sentences rules secret subs po).summary.length = po.length ∧
    ((azure_fallback_evaluation sentences rules secret subs po).summary.get
        ⟨i, by simpa [azure_fallback_evaluation] using h⟩).score
      = specFallbackScore
          (decide (azureWordOf subs (po.get ⟨i, h⟩) ≠ ""))
          (decide (normWord (azureWordOf subs (po.get ⟨i, h⟩)) ≠ "" ∧
            subs.countP (fun kv =>
              normWord kv.2.word = normWord (azureWordOf subs (po.get ⟨i, h⟩))) = 1))
          (decide (azureWordOf subs (po.get ⟨i, h⟩) ≠ "" ∧
            "too_direct" ∉ azureFlagsOf sentences rules secret subs (po.get ⟨i, h⟩)))
          (decide ("forbidden" ∈ azureFlagsOf sentences rules secret subs (po.get ⟨i, h⟩))) := by
  constructor
  · simp [azure_fallback_evaluation]
  · simp only [azure_fallback_evaluation, List.get_eq_getElem, List.getElem_map]
    unfold azureFallbackEntry azureFlagsOf
    exact azureFallbackScore_eq_spec _ _ _

/-- Concrete inputs for the `"gravity"` scenario. -/
def gravitySubs : List (String × SubPayload) :=
  [("p1", ⟨"gravity", []⟩), ("p2", ⟨"gravity", []⟩), ("p3", ⟨"orbit", []⟩)]

def gravityPo : List PlayerPayload :=
  [⟨"p1", "P1", true⟩, ⟨"p2", "P2", true⟩, ⟨"p3", "P3", true⟩]

/-- C8 (witness): the gravity scenario of the claim.  Players 1 and 2 both
submit `"gravity"` and get score 2 (no uniqueness bonus); player 3
submits the distinct `"orbit"` and gets 3 (with the bonus). -/
theorem claim_C8_amended_witness :
    ((azure_fallback_evaluation [] ⟨[], []⟩ "space" gravitySubs gravityPo).summary.map
      (fun e => e.score) = [2, 2, 3]) ∧
    ((azure_fallback_evaluation [] ⟨[], []⟩ "space" gravitySubs gravityPo).summary.get
      ⟨2, by decide⟩).score
      = specFallbackScore
          (decide (azureWordOf gravitySubs (gravityPo.get ⟨2, by decide⟩) ≠ ""))
          (decide (normWord (azureWordOf gravitySubs (gravityPo.get ⟨2, by decide⟩)) ≠ "" ∧
            gravitySubs.countP (fun kv =>
              normWord kv.2.word
                = normWord (azureWordOf gravitySubs (gravityPo.get ⟨2, by decide⟩))) = 1))
          (decide (azureWordOf gravitySubs (gravityPo.get ⟨2, by decide⟩) ≠ "" ∧
            "too_direct" ∉ azureFlagsOf [] ⟨[], []⟩ "space" gravitySubs
              (gravityPo.get ⟨2, by decide⟩)))
          (decide ("forbidden" ∈ azureFlagsOf [] ⟨[], []⟩ "space" gravitySubs
            (gravityPo.get ⟨2, by decide⟩))) := by
  constructor
  · decide
  · exact (claim_C8_amended [] ⟨[], []⟩ "space" gravitySubs gravityPo 2 (by decide)).2

/-! ## `backend/state.py` — the game state machine

Every operation of `GameState` runs under `self.lock`, so each is
embedded as a pure state-transition function.  `time.time()` is passed
in as an explicit `now` argument; `uuid.uuid4().hex` as an explicit
fresh-id argument; the configured `HOST_PLAYER_NAME` as an explicit
`hostName` argument. -/

structure Player where
  id : String
  name : String
  is_host : Bool
  ready : Bool
  score : Int
  last_word : Option String
  connected : Bool
  joined_at : Nat
deriving DecidableEq

structure Submission where
  player_id : String
  word : String
  flags : List String
  score : Int
  hint : Option String
  meta : List (String × String)
deriving DecidableEq

structure GameState where
  max_rounds : Nat
  players : List (String × Player)
  player_order : List String
  round : Nat
  phase : String
  remaining_ms : Int
  timer_deadline : Option Nat
  timer_task : Bool
  submissions : List (Nat × List (String × Submission))
  secret_by_round : List (Nat × String)
deriving DecidableEq

/-- `GameState._sync_host_flags`: host goes to whoever matches the
configured host name. -/
def sync_host_flags (hostName : String) (players : List (String × Player)) :
    List (String × Player) :=
  players.map (fun kv => (kv.1, { kv.2 with is_host := kv.2.name == hostName }))

/-- Python `str.strip()` on a `String`. -/
def stripStr (s : String) : String := ⟨stripChars s.toList⟩

/-- The fresh-player branch of `add_player` (shared by the three paths
that do not find a known existing id). -/
def add_player_new (hostName newId : String) (now : Nat) (s : GameState)
    (incoming : String) : GameState × Except String Player :=
  if 5 ≤ s.players.length then
    (s, .error "room_full")
  else
    let p : Player :=
      { id := newId, name := if incoming ≠ "" then incoming else "Player",
        is_host := false, ready := false, score := 0, last_word := none,
        connected := true, joined_at := now }
    let players1 := sync_host_flags hostName (s.players ++ [(newId, p)])
    ({ s with players := players1, player_order := s.player_order ++ [newId] },
      .ok { p with is_host := p.name == hostName })

/-- `GameState.add_player`.  `existing_id and existing_id in self.players`
is a Python truthiness test: an absent or empty `existing_id`, or an
unknown one, falls through to the fresh-player branch. -/
def add_player (hostName newId : String) (now : Nat) (s : GameState)
    (name : String) (existing_id : Option String) : GameState × Except String Player :=
  let incoming := stripStr name
  match existing_id with
  | some e =>
    if e ≠ "" then
      match alookup e s.players with
      | some p =>
        let p1 : Player :=
          { p with connected := true, name := if incoming ≠ "" then incoming else p.name }
        let players1 := sync_host_flags hostName (aupdate e (fun _ => p1) s.players)
        ({ s with players := players1 }, .ok { p1 with is_host := p1.name == hostName })
      | none => add_player_new hostName newId now s incoming
    else
      add_player_new hostName newId now s incoming
  | none => add_player_new hostName newId now s incoming

/-- `GameState.remove_player`. -/
def remove_player (hostName : String) (s : GameState) (player_id : String) : GameState :=
  match alookup player_id s.players with
  | none => s
  | some _ =>
    { s with
      players := sync_host_flags hostName
        (s.players.filter (fun kv => !(kv.1 == player_id))),
      player_order := s.player_order.filter (fun pid => !(pid == player_id)) }

/-- `GameState.mark_disconnected`. -/
def mark_disconnected (s : GameState) (player_id : String) : GameState :=
  match alookup player_id s.players with
  | none => s
  | some _ =>
    { s with players :=
        aupdate player_id (fun p => { p with connected := false, ready := false }) s.players }

/-- `GameState.set_phase`. -/
def set_phase (s : GameState) (phase : String) (duration_seconds : Option Nat)
    (now : Nat) : GameState :=
  match duration_seconds with
  | none => { s with phase := phase, timer_deadline := none, remaining_ms := 0 }
  | some d =>
    { s with
      phase := phase
      timer_deadline := some (now + d)
      remaining_ms := (d : Int) * 1000 }

/-- `GameState.record_submission`. -/
def record_submission (s : GameState) (player_id word : String) : GameState :=
  let submission : Submission :=
    { player_id := player_id, word := word, flags := [], score := 0, hint := none, meta := [] }
  let players1 := aupdate player_id (fun p => { p with last_word := some word }) s.players
  let current := (alookup s.round s.submissions).getD []
  { s with
    players := players1
    submissions := aset s.round (aset player_id submission current) s.submissions }

/-- One iteration of the `ensure_missed_submissions` loop body: if `pid`
has no entry in round `r`, insert a timeout placeholder and clear
`last_word`. -/
def ensure_missed_step (r : Nat) (st : GameState) (pid : String) : GameState :=
  let current := (alookup r st.submissions).getD []
  if (alookup pid current).isSome then st
  else
    { st with
      submissions := aset r
        (aset pid { player_id := pid, word := "", flags := ["timeout"], score := 0,
                    hint := none, meta := [] } current) st.submissions,
      players := aupdate pid (fun p => { p with last_word := none }) st.players }

/-- `GameState.ensure_missed_submissions`. -/
def ensure_missed_submissions (s : GameState) : GameState :=
  let s0 : GameState :=
    if (alookup s.round s.submissions).isSome then s
    else { s with submissions := aset s.round [] s.submissions }
  s.player_order.foldl (ensure_missed_step s.round) s0

/-- `GameState.everyone_submitted`. -/
def everyone_submitted (s : GameState) : Bool :=
  let current := (alookup s.round s.submissions).getD []
  let expected := (s.players.filter (fun kv => kv.2.connected)).length
  expected ≤ current.length && 0 < expected

/-- `GameState.store_hint_result`. -/
def store_hint_result (s : GameState) (round_index : Nat) (player_id : String)
    (hint : String) (score : Int) (flags : List String) (meta : List (String × String)) :
    GameState :=
  let current := (alookup round_index s.submissions).getD []
  let sub := (alookup player_id current).getD
    { player_id := player_id, word := "", flags := [], score := 0, hint := none, meta := [] }
  let sub1 := { sub with hint := some hint, score := score, flags := flags, meta := meta }
  { s with
    submissions := aset round_index (aset player_id sub1 current) s.submissions,
    players := aupdate player_id (fun p => { p with score := p.score + score }) s.players }

/-- `GameState.list_players`. -/
def list_players (s : GameState) : List Player :=
  s.player_order.filterMap (fun pid => alookup pid s.players)

/-- `GameState.get_secret`. -/
def get_secret (s : GameState) (round_index : Nat) : Option String :=
  alookup round_index s.secret_by_round

/-- `GameState.get_round_submissions`. -/
def get_round_submissions (s : GameState) (round_index : Nat) :
    List (String × Submission) :=
  (alookup round_index s.submissions).getD []

/-! ## Association-list lemmas -/

theorem alookup_aupdate_self {α : Type} (k : String) (f : α → α) :
    ∀ l : List (String × α), alookup k (aupdate k f l) = (alookup k l).map f := by
  intro l
  induction l with
  | nil => simp [alookup, aupdate]
  | cons kv rest ih =>
    obtain ⟨k2, v⟩ := kv
    by_cases h : k2 = k
    · subst h
      simp [alookup, aupdate]
    · simp [alookup, aupdate, h, ih]

theorem alookup_aupdate_ne {α : Type} (k k2 : String) (hk : k2 ≠ k) (f : α → α) :
    ∀ l : List (String × α), alookup k2 (aupdate k f l) = alookup k2 l := by
  intro l
  induction l with
  | nil => simp [alookup, aupdate]
  | cons kv rest ih =>
    obtain ⟨k3, v⟩ := kv
    by_cases h3 : k3 = k
    · subst h3
      have hne : ¬(k3 = k2) := fun h => hk h.symm
      simp [alookup, aupdate, hne]
    · by_cases h4 : k3 = k2
      · subst h4
        simp [alookup, aupdate, h3]
      · simp [alookup, aupdate, h3, h4, ih]

theorem aupdate_map_fst {α : Type} (k : String) (f : α → α) :
    ∀ l : List (String × α), (aupdate k f l).map Prod.fst = l.map Prod.fst := by
  intro l
  induction l with
  | nil => simp [aupdate]
  | cons kv rest ih =>
    obtain ⟨k2, v⟩ := kv
    by_cases h : k2 = k <;> simp [aupdate, h, ih]

theorem aupdate_length {α : Type} (k : String) (f : α → α) :
    ∀ l : List (String × α), (aupdate k f l).length = l.length := by
  intro l
  induction l with
  | nil => simp [aupdate]
  | cons kv rest ih =>
    obtain ⟨k2, v⟩ := kv
    by_cases h : k2 = k <;> simp [aupdate, h, ih]

theorem alookup_sync (hostName : String) (k : String) :
    ∀ ps : List (String × Player), alookup k (sync_host_flags hostName ps)
      = (alookup k ps).map (fun p => { p with is_host := p.name == hostName }) := by
  intro ps
  induction ps with
  | nil => simp [alookup, sync_host_flags]
  | cons kv rest ih =>
    obtain ⟨k2, v⟩ := kv
    by_cases h : k2 = k <;> simp [alookup, sync_host_flags, h] <;>
      simpa [sync_host_flags] using ih

theorem sync_length (hostName : String) (ps : List (String × Player)) :
    (sync_host_flags hostName ps).length = ps.length := by
  simp [sync_host_flags]

theorem sync_map_fst (hostName : String) (ps : List (String × Player)) :
    (sync_host_flags hostName ps).map Prod.fst = ps.map Prod.fst := by
  induction ps with
  | nil => simp [sync_host_flags]
  | cons kv rest ih => simpa [sync_host_flags] using ih

theorem alookup_filter_self {α : Type} (k : String) :
    ∀ l : List (String × α), alookup k (l.filter (fun kv => !(kv.1 == k))) = none := by
  intro l
  induction l with
  | nil => simp [alookup]
  | cons kv rest ih =>
    obtain ⟨k2, v⟩ := kv
    by_cases h : k2 = k
    · subst h
      simpa [alookup] using ih
    · simp [alookup, h, ih]

theorem alookup_filter_ne {α : Type} (k k2 : String) (hk : k2 ≠ k) :
    ∀ l : List (String × α),
      alookup k2 (l.filter (fun kv => !(kv.1 == k))) = alookup k2 l := by
  intro l
  induction l with
  | nil => simp [alookup]
  | cons kv rest ih =>
    obtain ⟨k3, v⟩ := kv
    by_cases h3 : k3 = k
    · subst h3
      have hne : ¬(k3 = k2) := fun h => hk h.symm
      simp [alookup, hne, ih]
    · by_cases h4 : k3 = k2
      · subst h4
        simp [alookup, h3]
      · simp [alookup, h3, h4, ih]

theorem alookup_isSome_iff_mem_keys {α : Type} (k : String) :
    ∀ l : List (String × α), (alookup k l).isSome = true ↔ k ∈ l.map Prod.fst := by
  intro l
  induction l with
  | nil => simp [alookup]
  | cons kv rest ih =>
    obtain ⟨k2, v⟩ := kv
    by_cases h : k2 = k
    · subst h
      simp [alookup]
    · simp [alookup, h, ih]
      exact fun heq => absurd heq.symm h

/-! ## Claims about `mark_disconnected` and the transport disconnect path -/

/-- The `finally` block of `app.py websocket_endpoint`: when the socket
closes (for any reason — mere transport disconnect or explicit leave),
the registered player, if any, is removed via `state.remove_player`.
(`mark_disconnected` exists in `state.py` but is never called by the
transport layer.) -/
def disconnect_cleanup (hostName : String) (s : GameState) (detached : Option String) :
    GameState :=
  match detached with
  | none => s
  | some pid => remove_player hostName s pid

def basePlayer (pid nm : String) : Player :=
  { id := pid, name := nm, is_host := false, ready := false, score := 0,
    last_word := none, connected := true, joined_at := 0 }

def stateC7 : GameState :=
  { max_rounds := 3, players := [("p1", basePlayer "p1" "Alpha")], player_order := ["p1"],
    round := 1, phase := "submission", remaining_ms := 0, timer_deadline := none,
    timer_task := false, submissions := [(1, [])], secret_by_round := [(1, "azure")] }

/-- C7 (counterexample): in a `submission`-phase state with a connected,
non-submitting player, `mark_disconnected` flips connectivity off but
synthesizes no placeholder submission: the round's submission map is
unchanged and still holds nothing for the player. -/
theorem claim_C7_counterexample :
    stateC7.phase = "submission" ∧
    ((alookup "p1" (mark_disconnected stateC7 "p1").players).map (fun p => p.connected)
      = some false) ∧
    alookup "p1" ((alookup 1 (mark_disconnected stateC7 "p1").submissions).getD []) = none := by
  refine ⟨rfl, by decide, by decide⟩

/-- C7 (amended): `mark_disconnected` on a known player flips
connectivity off and clears the ready flag, and changes nothing else:
every other player's record, the submission maps (in every phase), the
phase, the order and the round index are untouched.  No placeholder
submission is synthesized; `everyoneSubmitted` is nevertheless unblocked
because the connected-player count drops. -/
theorem claim_C7_amended (s : GameState) (pid : String) (p : Player)
    (hp : alookup pid s.players = some p) :
    alookup pid (mark_disconnected s pid).players
      = some { p with connected := false, ready := false } ∧
    (∀ k, k ≠ pid → alookup k (mark_disconnected s pid).players = alookup k s.players) ∧
    (mark_disconnected s pid).submissions = s.submissions ∧
    (mark_disconnected s pid).phase = s.phase ∧
    (mark_disconnected s pid).player_order = s.player_order ∧
    (mark_disconnected s pid).round = s.round := by
  have hm : mark_disconnected s pid
      = { s with players :=
          aupdate pid (fun q => { q with connected := false, ready := false }) s.players } := by
    unfold mark_disconnected
    rw [hp]
  rw [hm]
  refine ⟨?_, ?_, rfl, rfl, rfl, rfl⟩
  · show alookup pid (aupdate pid _ s.players) = _
    rw [alookup_aupdate_self, hp]
    rfl
  · intro k hk
    exact alookup_aupdate_ne pid k hk _ s.players

/-- C7 (witness): concrete instantiation of `claim_C7_amended`. -/
theorem claim_C7_amended_witness :
    alookup "p1" (mark_disconnected stateC7 "p1").players
      = some { basePlayer "p1" "Alpha" with connected := false, ready := false } ∧
    (mark_disconnected stateC7 "p1").submissions = stateC7.submissions :=
  ⟨(claim_C7_amended stateC7 "p1" (basePlayer "p1" "Alpha") (by decide)).1,
   (claim_C7_amended stateC7 "p1" (basePlayer "p1" "Alpha") (by decide)).2.2.1⟩

def stateC6 : GameState :=
  { max_rounds := 3,
    players := [("p1", basePlayer "p1" "Alpha"), ("p2", basePlayer "p2" "Beta")],
    player_order := ["p1", "p2"],
    round := 1, phase := "submission", remaining_ms := 0, timer_deadline := none,
    timer_task := false, submissions := [(1, [])], secret_by_round := [(1, "azure")] }

/-- C6 (counterexample): a mere transport disconnect *does* delete the
player's record: the cleanup path removes the player from the roster and
the order, exactly as an explicit leave would. -/
theorem claim_C6_counterexample :
    (alookup "p1" stateC6.players).isSome = true ∧
    alookup "p1" (disconnect_cleanup "로켓단" stateC6 (some "p1")).players = none ∧
    (disconnect_cleanup "로켓단" stateC6 (some "p1")).player_order = ["p2"] := by
  refine ⟨by decide, by decide, by decide⟩

/-- C6 (amended): the websocket cleanup path deletes the registered
player's record and order slot on *any* socket close — mere transport
disconnects included, not only explicit leaves (the player is not merely
marked disconnected; `mark_disconnected` is never invoked there).  Every
other player keeps name, score, connectivity and ready flag (only the
name-based host flag is recomputed). -/
theorem claim_C6_amended (hostName : String) (s : GameState) (pid : String) (p : Player)
    (hp : alookup pid s.players = some p) :
    alookup pid (disconnect_cleanup hostName s (some pid)).players = none ∧
    pid ∉ (disconnect_cleanup hostName s (some pid)).player_order ∧
    (∀ k, k ≠ pid →
      (alookup k (disconnect_cleanup hostName s (some pid)).players).map
        (fun q => (q.name, q.score, q.connected, q.ready))
      = (alookup k s.players).map (fun q => (q.name, q.score, q.connected, q.ready))) := by
  have hd : disconnect_cleanup hostName s (some pid)
      = { s with
          players := sync_host_flags hostName
            (s.players.filter (fun kv => !(kv.1 == pid))),
          player_order := s.player_order.filter (fun q => !(q == pid)) } := by
    show remove_player hostName s pid = _
    unfold remove_player
    rw [hp]
  rw [hd]
  refine ⟨?_, ?_, ?_⟩
  · show alookup pid (sync_host_flags hostName _) = _
    rw [alookup_sync, alookup_filter_self]
    rfl
  · simp
  · intro k hk
    show (alookup k (sync_host_flags hostName _)).map _ = _
    rw [alookup_sync, alookup_filter_ne pid k hk]
    cases alookup k s.players <;> rfl

/-- C6 (witness): concrete instantiation of `claim_C6_amended`. -/
theorem claim_C6_amended_witness :
    alookup "p1" (disconnect_cleanup "로켓단" stateC6 (some "p1")).players = none ∧
    (alookup "p2" (disconnect_cleanup "로켓단" stateC6 (some "p1")).players).map
        (fun q => (q.name, q.score, q.connected, q.ready))
      = (alookup "p2" stateC6.players).map (fun q => (q.name, q.score, q.connected, q.ready)) :=
  ⟨(claim_C6_amended "로켓단" stateC6 "p1" (basePlayer "p1" "Alpha") (by decide)).1,
   (claim_C6_amended "로켓단" stateC6 "p1" (basePlayer "p1" "Alpha") (by decide)).2.2 "p2"
     (by decide)⟩

/-! ## Claims about `add_player` -/

/-- Helper: the exact result of the reactivation (known `existing_id`)
branch of `add_player`. -/
theorem add_player_existing_eq (hostName newId : String) (now : Nat) (s : GameState)
    (name e : String) (he : e ≠ "") (p : Player) (hp : alookup e s.players = some p) :
    add_player hostName newId now s name (some e)
      = ({ s with players := sync_host_flags hostName (aupdate e (fun _ =>
            { p with
              connected := true
              name := if stripStr name ≠ "" then stripStr name else p.name }) s.players) },
         .ok { p with
               connected := true
               name := if stripStr name ≠ "" then stripStr name else p.name
               is_host :=
                 (if stripStr name ≠ "" then stripStr name else p.name) == hostName }) := by
  simp only [add_player]
  rw [if_pos he, hp]

/-- C9 (counterexample): the reactivation path *does* run the host
re-assignment: reconnecting under the configured host name flips the
player's host flag. -/
def stateC9 : GameState :=
  { max_rounds := 3, players := [("p1", basePlayer "p1" "alpha")], player_order := ["p1"],
    round := 0, phase := "lobby", remaining_ms := 0, timer_deadline := none,
    timer_task := false, submissions := [], secret_by_round := [] }

theorem claim_C9_counterexample :
    ((alookup "p1" stateC9.players).map (fun p => p.is_host) = some false) ∧
    ((alookup "p1" (add_player "로켓단" "z1" 0 stateC9 "로켓단" (some "p1")).1.players).map
      (fun p => p.is_host) = some true) := by
  refine ⟨by decide, by decide⟩

/-- C9 (amended): for a known player id, `add_player` with that
`existing_id` reactivates the existing player: the returned record keeps
the same id and cumulative score, nothing is appended to the player
order, no submission is touched, and every player's score is preserved.
However `_sync_host_flags` *is* re-run on this path, so host flags are
recomputed by the configured-name rule (a rename through this path can
change the host assignment). -/
theorem claim_C9_amended (hostName newId : String) (now : Nat) (s : GameState)
    (name e : String) (he : e ≠ "") (p : Player) (hp : alookup e s.players = some p) :
    (add_player hostName newId now s name (some e)).1.player_order = s.player_order ∧
    (∃ q, (add_player hostName newId now s name (some e)).2 = .ok q ∧
      q.id = p.id ∧ q.score = p.score) ∧
    (∀ k, (alookup k (add_player hostName newId now s name (some e)).1.players).map
        (fun q => q.score)
      = (alookup k s.players).map (fun q => q.score)) ∧
    (add_player hostName newId now s name (some e)).1.submissions = s.submissions ∧
    (∀ k q, alookup k (add_player hostName newId now s name (some e)).1.players = some q →
      q.is_host = (q.name == hostName)) := by
  rw [add_player_existing_eq hostName newId now s name e he p hp]
  refine ⟨rfl, ⟨_, rfl, rfl, rfl⟩, ?_, rfl, ?_⟩
  · intro k
    show (alookup k (sync_host_flags hostName _)).map _ = _
    rw [alookup_sync]
    by_cases hk : k = e
    · subst hk
      rw [alookup_aupdate_self, hp]
      rfl
    · rw [alookup_aupdate_ne e k hk]
      cases alookup k s.players <;> rfl
  · intro k q hq
    show _ = _
    rw [show ({ s with players := sync_host_flags hostName (aupdate e _ s.players) } :
        GameState).players = sync_host_flags hostName (aupdate e (fun _ =>
          { p with
            connected := true
            name := if stripStr name ≠ "" then stripStr name else p.name }) s.players)
      from rfl] at hq
    rw [alookup_sync] at hq
    cases halo : alookup k (aupdate e (fun _ =>
        { p with
          connected := true
          name := if stripStr name ≠ "" then stripStr name else p.name }) s.players) with
    | none => rw [halo] at hq; exact absurd hq (by simp)
    | some q2 =>
      rw [halo] at hq
      simp at hq
      rw [← hq]

/-- C9 (witness): concrete instantiation of `claim_C9_amended` (the
reconnecting player keeps id, score, and nothing is appended). -/
theorem claim_C9_amended_witness :
    (add_player "로켓단" "z1" 0 stateC9 "alpha2" (some "p1")).1.player_order
      = stateC9.player_order ∧
    (∃ q, (add_player "로켓단" "z1" 0 stateC9 "alpha2" (some "p1")).2 = .ok q ∧
      q.id = "p1" ∧ q.score = 0) := by
  have h := claim_C9_amended "로켓단" "z1" 0 stateC9 "alpha2" "p1" (by decide)
    (basePlayer "p1" "alpha") (by decide)
  exact ⟨h.1, h.2.1⟩

/-- C10: `add_player` with a known (non-empty) `existing_id` always takes
the reactivation branch, which performs no capacity check: it succeeds
with the same player identity and never returns `room_full`, regardless
of the current player count. -/
theorem claim_C10_existing_id_bypasses_capacity (hostName newId : String) (now : Nat)
    (s : GameState) (name e : String) (he : e ≠ "") (p : Player)
    (hp : alookup e s.players = some p) :
    ∃ q, (add_player hostName newId now s name (some e)).2 = .ok q ∧ q.id = p.id := by
  rw [add_player_existing_eq hostName newId now s name e he p hp]
  exact ⟨_, rfl, rfl⟩

def fiveState : GameState :=
  { max_rounds := 3,
    players := [("p1", basePlayer "p1" "A"), ("p2", basePlayer "p2" "B"),
      ("p3", basePlayer "p3" "C"), ("p4", basePlayer "p4" "D"), ("p5", basePlayer "p5" "E")],
    player_order := ["p1", "p2", "p3", "p4", "p5"],
    round := 0, phase := "lobby", remaining_ms := 0, timer_deadline := none,
    timer_task := false, submissions := [], secret_by_round := [] }

/-- C10 (witness): reconnecting into a full (5-player) room succeeds. -/
theorem claim_C10_existing_id_bypasses_capacity_witness :
    5 ≤ fiveState.players.length ∧
    ∃ q, (add_player "로켓단" "fresh" 0 fiveState "Back" (some "p1")).2 = .ok q ∧
      q.id = "p1" := by
  refine ⟨by decide, ?_⟩
  obtain ⟨q, h1, h2⟩ := claim_C10_existing_id_bypasses_capacity "로켓단" "fresh" 0 fiveState
    "Back" "p1" (by decide) (basePlayer "p1" "A") (by decide)
  exact ⟨q, h1, h2⟩

/-- One `join` request (`add_player` call): display name, optional
existing id, and the fresh id / timestamp the environment would supply. -/
structure AddReq where
  name : String
  existing_id : Option String
  newId : String
  now : Nat

/-- A sequence of `add_player` calls (each `RoomFull` failure leaves the
state unchanged, so the fold just keeps the returned state). -/
def applyAdds (hostName : String) (reqs : List AddReq) (s : GameState) : GameState :=
  reqs.foldl (fun st r => (add_player hostName r.newId r.now st r.name r.existing_id).1) s

theorem add_player_new_length_le (hostName newId : String) (now : Nat) (s : GameState)
    (incoming : String) (h : s.players.length ≤ 5) :
    (add_player_new hostName newId now s incoming).1.players.length ≤ 5 := by
  unfold add_player_new
  by_cases hcap : 5 ≤ s.players.length
  · rw [if_pos hcap]
    exact h
  · rw [if_neg hcap]
    show (sync_host_flags hostName (s.players ++ [_])).length ≤ 5
    rw [sync_length, List.length_append]
    simp only [List.length_cons, List.length_nil]
    omega

/-- Each `add_player` call preserves the 5-player capacity bound. -/
theorem add_player_length_le (hostName newId : String) (now : Nat) (s : GameState)
    (name : String) (eid : Option String) (h : s.players.length ≤ 5) :
    (add_player hostName newId now s name eid).1.players.length ≤ 5 := by
  cases eid with
  | none =>
    show (add_player_new hostName newId now s (stripStr name)).1.players.length ≤ 5
    exact add_player_new_length_le hostName newId now s (stripStr name) h
  | some e =>
    by_cases he : e ≠ ""
    · cases hp : alookup e s.players with
      | none =>
        have : add_player hostName newId now s name (some e)
            = add_player_new hostName newId now s (stripStr name) := by
          simp only [add_player]
          rw [if_pos he, hp]
        rw [this]
        exact add_player_new_length_le hostName newId now s (stripStr name) h
      | some p =>
        rw [add_player_existing_eq hostName newId now s name e he p hp]
        show (sync_host_flags hostName (aupdate e _ s.players)).length ≤ 5
        rw [sync_length, aupdate_length]
        exact h
    · have : add_player hostName newId now s name (some e)
          = add_player_new hostName newId now s (stripStr name) := by
        simp only [add_player]
        rw [if_neg he]
      rw [this]
      exact add_player_new_length_le hostName newId now s (stripStr name) h

/-- C3: (i) starting from any state within capacity, no sequence of
`add_player` calls ever brings the roster above 5 players; (ii) an
`add_player` call that does not carry a known (non-empty) existing id,
made when the roster already holds at least 5 players, returns the
`room_full` error and leaves the state completely unchanged. -/
theorem claim_C3_room_capacity (hostName : String) :
    (∀ (reqs : List AddReq) (s0 : GameState), s0.players.length ≤ 5 →
      (applyAdds hostName reqs s0).players.length ≤ 5) ∧
    (∀ (newId : String) (now : Nat) (s : GameState) (name : String) (eid : Option String),
      (∀ e, eid = some e → e ≠ "" → alookup e s.players = none) →
      5 ≤ s.players.length →
      add_player hostName newId now s name eid = (s, .error "room_full")) := by
  constructor
  · intro reqs
    induction reqs with
    | nil => intro s0 h; exact h
    | cons r rest ih =>
      intro s0 h
      rw [applyAdds, List.foldl_cons]
      exact ih _ (add_player_length_le hostName r.newId r.now s0 r.name r.existing_id h)
  · intro newId now s name eid hunknown hcap
    have hnew : add_player_new hostName newId now s (stripStr name)
        = (s, .error "room_full") := by
      unfold add_player_new
      rw [if_pos hcap]
    cases eid with
    | none => exact hnew
    | some e =>
      by_cases he : e ≠ ""
      · have hp := hunknown e rfl he
        simp only [add_player]
        rw [if_pos he, hp]
        exact hnew
      · simp only [add_player]
        rw [if_neg he]
        exact hnew

def emptyState : GameState :=
  { max_rounds := 3, players := [], player_order := [], round := 0, phase := "lobby",
    remaining_ms := 0, timer_deadline := none, timer_task := false, submissions := [],
    secret_by_round := [] }

def sixRequests : List AddReq :=
  [⟨"A", none, "n1", 0⟩, ⟨"B", none, "n2", 1⟩, ⟨"C", none, "n3", 2⟩,
   ⟨"D", none, "n4", 3⟩, ⟨"E", none, "n5", 4⟩, ⟨"F", none, "n6", 5⟩]

/-- C3 (witness): six fresh joins from an empty room stay within the
bound, and a sixth fresh join into a full room errors with the state
unchanged. -/
theorem claim_C3_room_capacity_witness :
    (applyAdds "로켓단" sixRequests emptyState).players.length ≤ 5 ∧
    add_player "로켓단" "n7" 9 fiveState "G" none = (fiveState, .error "room_full") := by
  refine ⟨(claim_C3_room_capacity "로켓단").1 sixRequests emptyState (by decide), ?_⟩
  exact (claim_C3_room_capacity "로켓단").2 "n7" 9 fiveState "G" none
    (fun e he _ => by exact absurd he (by simp)) (by decide)

/-! ## Claims about `everyone_submitted` -/

theorem length_le_of_nodup_subset {α : Type} [DecidableEq α] (l1 l2 : List α)
    (hnd : l1.Nodup) (hsub : l1 ⊆ l2) : l1.length ≤ l2.length := by
  calc l1.length = l1.toFinset.card := (List.toFinset_card_of_nodup hnd).symm
    _ ≤ l2.toFinset.card := Finset.card_le_card (fun x hx => by
        rw [List.mem_toFinset] at hx ⊢
        exact hsub hx)
    _ ≤ l2.length := List.toFinset_card_le l2

/-- With distinct keys, disconnecting `d` leaves exactly the connected
players other than `d` connected. -/
theorem filter_connected_aupdate (d : String) :
    ∀ l : List (String × Player), (l.map Prod.fst).Nodup →
      ((aupdate d (fun p => { p with connected := false, ready := false }) l).filter
        (fun kv => kv.2.connected)).length
      = (l.filter (fun kv => kv.2.connected && !(kv.1 == d))).length := by
  intro l hl
  rw [← List.countP_eq_length_filter, ← List.countP_eq_length_filter]
  induction l with
  | nil => simp [aupdate]
  | cons kv rest ih =>
    obtain ⟨k2, v⟩ := kv
    simp only [List.map_cons, List.nodup_cons] at hl
    by_cases h : k2 = d
    · subst h
      have ha : aupdate k2 (fun p => { p with connected := false, ready := false })
          ((k2, v) :: rest)
          = (k2, { v with connected := false, ready := false }) :: rest := by
        simp [aupdate]
      rw [ha, List.countP_cons, List.countP_cons]
      have hcong : List.countP (fun (kv : String × Player) => kv.2.connected) rest
          = List.countP (fun (kv : String × Player) => kv.2.connected && !(kv.1 == k2)) rest := by
        apply List.countP_congr
        intro kv hkv
        have hne : kv.1 ≠ k2 := by
          intro he
          exact hl.1 (he ▸ List.mem_map_of_mem Prod.fst hkv)
        simp [hne]
      simp [hcong]
    · have ha : aupdate d (fun p => { p with connected := false, ready := false })
          ((k2, v) :: rest)
          = (k2, v) :: aupdate d (fun p => { p with connected := false, ready := false }) rest := by
        simp [aupdate, h]
      rw [ha, List.countP_cons, List.countP_cons, ih hl.2]
      simp [h]

/-- The claim's reading of `everyoneSubmitted`: every currently connected
player has a Submission for the current round, and at least one player
is connected. -/
def everyoneSubmittedSpec (s : GameState) : Prop :=
  (∀ kv ∈ s.players, kv.2.connected = true →
    (alookup kv.1 ((alookup s.round s.submissions).getD [])).isSome = true) ∧
  (∃ kv ∈ s.players, kv.2.connected = true)

def stateC2 : GameState :=
  { max_rounds := 3,
    players := [("A", basePlayer "A" "Alice"),
                ("B", { basePlayer "B" "Bob" with connected := false })],
    player_order := ["A", "B"],
    round := 1, phase := "submission", remaining_ms := 0, timer_deadline := none,
    timer_task := false,
    submissions := [(1, [("B", ⟨"B", "cloud", [], 0, none, []⟩)])],
    secret_by_round := [(1, "azure")] }

/-- C2 (counterexample): `everyone_submitted` is count-based, not
membership-based.  In `stateC2` the disconnected player B has the only
submission while the connected player A has none: the code returns
`true`, but the claimed "every currently connected player has a
Submission" reading is false. -/
theorem claim_C2_counterexample :
    everyone_submitted stateC2 = true ∧ ¬ everyoneSubmittedSpec stateC2 := by
  constructor
  · decide
  · unfold everyoneSubmittedSpec
    decide

/-- C2 (amended): `everyone_submitted` compares the *count* of
submissions in the current round with the count of connected players.
Consequently (with distinct roster keys): (i) if every currently
connected player has a Submission for the current round and at least one
player is connected, it returns `true`; and (ii) disconnecting the sole
non-submitting connected player — while another connected player remains
and every other connected player has submitted — makes it `true` without
that player's action.  (The converse of (i) fails: submissions of
disconnected players also count, see the counterexample.) -/
theorem claim_C2_amended (s : GameState)
    (hnd : (s.players.map Prod.fst).Nodup) :
    (everyoneSubmittedSpec s → everyone_submitted s = true) ∧
    (∀ d pd, alookup d s.players = some pd →
      (∀ kv ∈ s.players, kv.2.connected = true → kv.1 ≠ d →
        (alookup kv.1 ((alookup s.round s.submissions).getD [])).isSome = true) →
      (∃ kv ∈ s.players, kv.2.connected = true ∧ kv.1 ≠ d) →
      everyone_submitted (mark_disconnected s d) = true) := by
  constructor
  · rintro ⟨hall, ⟨kv0, hkv0, hconn0⟩⟩
    unfold everyone_submitted
    simp only [Bool.and_eq_true, decide_eq_true_eq]
    constructor
    · have hsub : (s.players.filter (fun kv => kv.2.connected)).map Prod.fst
          ⊆ ((alookup s.round s.submissions).getD []).map Prod.fst := by
        intro x hx
        obtain ⟨kv, hkvmem, hfst⟩ := List.mem_map.mp hx
        have hmem := List.mem_filter.mp hkvmem
        have := hall kv hmem.1 (by simpa using hmem.2)
        rw [← hfst]
        exact (alookup_isSome_iff_mem_keys kv.1 _).mp this
      have hndc : ((s.players.filter (fun kv => kv.2.connected)).map Prod.fst).Nodup :=
        hnd.sublist (List.Sublist.map Prod.fst (List.filter_sublist _))
      have := length_le_of_nodup_subset _ _ hndc hsub
      simpa using this
    · have : kv0 ∈ s.players.filter (fun kv => kv.2.connected) :=
        List.mem_filter.mpr ⟨hkv0, by simpa using hconn0⟩
      exact List.length_pos_of_mem this
  · intro d pd hpd hall hex
    have hplayers : (mark_disconnected s d).players
        = aupdate d (fun q => { q with connected := false, ready := false }) s.players := by
      unfold mark_disconnected
      rw [hpd]
    have hsubs : (mark_disconnected s d).submissions = s.submissions := by
      unfold mark_disconnected
      rw [hpd]
    have hround : (mark_disconnected s d).round = s.round := by
      unfold mark_disconnected
      rw [hpd]
    unfold everyone_submitted
    rw [hplayers, hsubs, hround, filter_connected_aupdate d s.players hnd]
    simp only [Bool.and_eq_true, decide_eq_true_eq]
    constructor
    · have hsub : (s.players.filter (fun kv => kv.2.connected && !(kv.1 == d))).map Prod.fst
          ⊆ ((alookup s.round s.submissions).getD []).map Prod.fst := by
        intro x hx
        obtain ⟨kv, hkvmem, hfst⟩ := List.mem_map.mp hx
        have hmem := List.mem_filter.mp hkvmem
        have hconj := hmem.2
        simp only [Bool.and_eq_true, Bool.not_eq_true', beq_eq_false_iff_ne] at hconj
        have := hall kv hmem.1 hconj.1 hconj.2
        rw [← hfst]
        exact (alookup_isSome_iff_mem_keys kv.1 _).mp this
      have hndc : ((s.players.filter
          (fun kv => kv.2.connected && !(kv.1 == d))).map Prod.fst).Nodup :=
        hnd.sublist (List.Sublist.map Prod.fst (List.filter_sublist _))
      have := length_le_of_nodup_subset _ _ hndc hsub
      simpa using this
    · obtain ⟨kv0, hkv0, hconn0, hne0⟩ := hex
      have : kv0 ∈ s.players.filter (fun kv => kv.2.connected && !(kv.1 == d)) :=
        List.mem_filter.mpr ⟨hkv0, by simp [hconn0, hne0]⟩
      exact List.length_pos_of_mem this

def stateC2w : GameState :=
  { max_rounds := 3,
    players := [("A", basePlayer "A" "Alice"), ("D", basePlayer "D" "Dana")],
    player_order := ["A", "D"],
    round := 1, phase := "submission", remaining_ms := 0, timer_deadline := none,
    timer_task := false,
    submissions := [(1, [("A", ⟨"A", "cloud", [], 0, none, []⟩)])],
    secret_by_round := [(1, "azure")] }

def stateC2full : GameState :=
  { stateC2w with
    submissions := [(1, [("A", ⟨"A", "cloud", [], 0, none, []⟩),
                         ("D", ⟨"D", "vm", [], 0, none, []⟩)])] }

/-- C2 (witness): both parts of the amended claim at concrete states:
everyone connected submitted in `stateC2full`, and in `stateC2w`
disconnecting the non-submitting `"D"` flips `everyone_submitted` to
`true`. -/
theorem claim_C2_amended_witness :
    everyone_submitted stateC2full = true ∧
    everyone_submitted stateC2w = false ∧
    everyone_submitted (mark_disconnected stateC2w "D") = true := by
  refine ⟨?_, by decide, ?_⟩
  · exact (claim_C2_amended stateC2full (by decide)).1
      (by unfold everyoneSubmittedSpec; decide)
  · exact (claim_C2_amended stateC2w (by decide)).2 "D" (basePlayer "D" "Dana")
      (by decide) (by decide) (by decide)

/-! ## `backend/app.py` — `finalize_round`

`finalize_round` re-reads round/phase under the state lock and aborts if
they no longer match; otherwise it cancels the timer, moves to
`resolution`, synthesizes missed submissions, calls the evaluator once,
stores one result per player, and starts the discussion phase.  The
evaluator (`ai_agent.evaluate_round`) is passed in as a function
argument; the returned `Nat` counts evaluator calls and the returned
list records one `StoreEvent` per `store_hint_result` call. -/

structure StoreEvent where
  pid : String
  score : Int
deriving DecidableEq

/-- `next((res for res in remaining if res.user == player.name), None)`
followed by `remaining_results.remove(matched)`: find the first result
matching the player's name and remove it. -/
def pickMatch (name : String) : List GeminiPlayerResult →
    Option (GeminiPlayerResult × List GeminiPlayerResult)
  | [] => none
  | r :: rest =>
    if r.user == name then some (r, rest)
    else
      match pickMatch name rest with
      | some (m, rest2) => some (m, r :: rest2)
      | none => none

/-- The full matching step: by name first, otherwise positionally
(`remaining_results[0]`), `none` only when no results remain (in which
case the player is skipped by `continue`). -/
def pickResult (name : String) (rem : List GeminiPlayerResult) :
    Option (GeminiPlayerResult × List GeminiPlayerResult) :=
  match pickMatch name rem with
  | some p => some p
  | none =>
    match rem with
    | [] => none
    | r :: rest => some (r, rest)

/-- The per-player loop of `finalize_round` (store + unicast + summary
row; only the state mutation and the store events are modelled;
`matched.hint or ""` and `matched.score or 0` are identities on `str`
and `int` values). -/
def resolveLoop (r : Nat) : List Player → List GeminiPlayerResult → GameState →
    GameState × List StoreEvent
  | [], _, st => (st, [])
  | p :: rest, rem, st =>
    match pickResult p.name rem with
    | none => resolveLoop r rest rem st
    | some (m, rem2) =>
      let res := resolveLoop r rest rem2
        (store_hint_result st r p.id m.hint m.score [] [("source", "gemini")])
      (res.1, ⟨p.id, m.score⟩ :: res.2)

def DISCUSSION_SECONDS : Nat := 45

/-- The guard-passing part of `finalize_round` up to the evaluator call:
cancel the timer, set phase `resolution`, synthesize missed
submissions. -/
def finalize_prepared (now : Nat) (s : GameState) : GameState :=
  ensure_missed_submissions (set_phase { s with timer_task := false } "resolution" none now)

/-- The body of `app.py finalize_round` past the round/phase guard:
prepare the state, call the evaluator once, store every result, move to
`discussion`. -/
def finalize_go
    (evalf : Nat → String → List (String × SubPayload) → List PlayerPayload →
      GeminiRoundEvaluation)
    (now : Nat) (round_index : Nat) (_reason : String) (s : GameState) :
    GameState × Nat × List StoreEvent :=
  let s3 := finalize_prepared now s
  let secret := (get_secret s3 round_index).getD ""
  let subs := get_round_submissions s3 round_index
  let players := list_players s3
  let submission_payload := subs.map (fun kv => (kv.1, ⟨kv.2.word, kv.2.flags⟩))
  let player_payload := players.map (fun p => ⟨p.id, p.name, p.connected⟩)
  let ev := evalf round_index secret submission_payload player_payload
  let res := resolveLoop round_index players ev.results s3
  let s5 := set_phase res.1 "discussion" (some DISCUSSION_SECONDS) now
  ({ s5 with timer_task := true }, 1, res.2)

/-- `app.py finalize_round`. -/
def finalize_round
    (evalf : Nat → String → List (String × SubPayload) → List PlayerPayload →
      GeminiRoundEvaluation)
    (now : Nat) (round_index : Nat) (reason : String) (s : GameState) :
    GameState × Nat × List StoreEvent :=
  if s.round ≠ round_index ∨ s.phase ≠ "submission" then
    (s, 0, [])
  else
    finalize_go evalf now round_index reason s

def playerScore (s : GameState) (pid : String) : Option Int :=
  (alookup pid s.players).map (fun p => p.score)

theorem pickMatch_length (name : String) :
    ∀ rem m rest2, pickMatch name rem = some (m, rest2) → rest2.length + 1 = rem.length := by
  intro rem
  induction rem with
  | nil => intro m rest2 h; simp [pickMatch] at h
  | cons r rest ih =>
    intro m rest2 h
    simp only [pickMatch] at h
    by_cases hu : r.user == name
    · rw [if_pos hu] at h
      injection h with h2
      injection h2 with _ h3
      rw [← h3]
      simp
    · rw [if_neg hu] at h
      cases hpm : pickMatch name rest with
      | none => rw [hpm] at h; exact absurd h (by simp)
      | some pr =>
        obtain ⟨m2, rest3⟩ := pr
        rw [hpm] at h
        injection h with h2
        injection h2 with h3 h4
        rw [← h4]
        have := ih m2 rest3 hpm
        simp only [List.length_cons]
        omega

theorem pickResult_of_ne_nil (name : String) (rem : List GeminiPlayerResult)
    (h : rem ≠ []) :
    ∃ m rest2, pickResult name rem = some (m, rest2) ∧ rest2.length + 1 = rem.length := by
  unfold pickResult
  cases hpm : pickMatch name rem with
  | some p =>
    obtain ⟨m, rest2⟩ := p
    exact ⟨m, rest2, rfl, pickMatch_length name rem m rest2 hpm⟩
  | none =>
    cases rem with
    | nil => exact absurd rfl h
    | cons r rest => exact ⟨r, rest, rfl, rfl⟩

theorem resolveLoop_events (r : Nat) :
    ∀ (players : List Player) (rem : List GeminiPlayerResult) (st : GameState),
      players.length ≤ rem.length →
      (resolveLoop r players rem st).2.map (fun e => e.pid)
        = players.map (fun p => p.id) := by
  intro players
  induction players with
  | nil => intro rem st _; simp [resolveLoop]
  | cons p rest ih =>
    intro rem st hlen
    have hne : rem ≠ [] := by
      intro hnil
      rw [hnil] at hlen
      simp at hlen
    obtain ⟨m, rem2, hpick, hlen2⟩ := pickResult_of_ne_nil p.name rem hne
    have hres : resolveLoop r (p :: rest) rem st
        = ((resolveLoop r rest rem2
            (store_hint_result st r p.id m.hint m.score [] [("source", "gemini")])).1,
           ⟨p.id, m.score⟩ :: (resolveLoop r rest rem2
            (store_hint_result st r p.id m.hint m.score [] [("source", "gemini")])).2) := by
      simp only [resolveLoop]
      rw [hpick]
    rw [hres]
    simp only [List.map_cons]
    rw [ih rem2 _ (by simp at hlen; omega)]

theorem resolveLoop_phase (r : Nat) :
    ∀ (players : List Player) (rem : List GeminiPlayerResult) (st : GameState),
      (resolveLoop r players rem st).1.phase = st.phase := by
  intro players
  induction players with
  | nil => intro rem st; rfl
  | cons p rest ih =>
    intro rem st
    simp only [resolveLoop]
    cases hpick : pickResult p.name rem with
    | none => exact ih rem st
    | some pr =>
      obtain ⟨m, rem2⟩ := pr
      exact ih rem2 _

theorem resolveLoop_round (r : Nat) :
    ∀ (players : List Player) (rem : List GeminiPlayerResult) (st : GameState),
      (resolveLoop r players rem st).1.round = st.round := by
  intro players
  induction players with
  | nil => intro rem st; rfl
  | cons p rest ih =>
    intro rem st
    simp only [resolveLoop]
    cases hpick : pickResult p.name rem with
    | none => exact ih rem st
    | some pr =>
      obtain ⟨m, rem2⟩ := pr
      exact ih rem2 _

theorem store_score_self (st : GameState) (r : Nat) (pid : String) (hint : String)
    (sc : Int) (fl : List String) (meta : List (String × String)) :
    playerScore (store_hint_result st r pid hint sc fl meta) pid
      = (playerScore st pid).map (fun x => x + sc) := by
  unfold playerScore store_hint_result
  show (alookup pid (aupdate pid _ st.players)).map _ = _
  rw [alookup_aupdate_self]
  cases alookup pid st.players <;> rfl

theorem store_score_other (st : GameState) (r : Nat) (pid pid2 : String)
    (hne : pid2 ≠ pid) (hint : String) (sc : Int) (fl : List String)
    (meta : List (String × String)) :
    playerScore (store_hint_result st r pid hint sc fl meta) pid2 = playerScore st pid2 := by
  unfold playerScore store_hint_result
  show (alookup pid2 (aupdate pid _ st.players)).map _ = _
  rw [alookup_aupdate_ne pid pid2 hne]

theorem resolveLoop_score_frame (r : Nat) :
    ∀ (players : List Player) (rem : List GeminiPlayerResult) (st : GameState) (pid : String),
      pid ∉ players.map (fun p => p.id) →
      playerScore (resolveLoop r players rem st).1 pid = playerScore st pid := by
  intro players
  induction players with
  | nil => intro rem st pid _; rfl
  | cons p rest ih =>
    intro rem st pid hpid
    simp only [List.map_cons, List.mem_cons] at hpid
    push_neg at hpid
    simp only [resolveLoop]
    cases hpick : pickResult p.name rem with
    | none => exact ih rem st pid hpid.2
    | some pr =>
      obtain ⟨m, rem2⟩ := pr
      rw [ih rem2 _ pid hpid.2]
      exact store_score_other st r p.id pid hpid.1 m.hint m.score [] [("source", "gemini")]

theorem resolveLoop_score (r : Nat) :
    ∀ (players : List Player) (rem : List GeminiPlayerResult) (st : GameState),
      (players.map (fun p => p.id)).Nodup →
      players.length ≤ rem.length →
      ∀ i (hi : i < players.length),
        playerScore (resolveLoop r players rem st).1 ((players.get ⟨i, hi⟩).id)
          = (playerScore st ((players.get ⟨i, hi⟩).id)).map
              (fun x => x + ((resolveLoop r players rem st).2.getD i ⟨"", 0⟩).score) := by
  intro players
  induction players with
  | nil => intro rem st _ _ i hi; exact absurd hi (by simp)
  | cons p rest ih =>
    intro rem st hnd hlen i hi
    simp only [List.map_cons, List.nodup_cons] at hnd
    have hne : rem ≠ [] := by
      intro hnil
      rw [hnil] at hlen
      simp at hlen
    obtain ⟨m, rem2, hpick, hlen2⟩ := pickResult_of_ne_nil p.name rem hne
    have hres : resolveLoop r (p :: rest) rem st
        = ((resolveLoop r rest rem2
            (store_hint_result st r p.id m.hint m.score [] [("source", "gemini")])).1,
           ⟨p.id, m.score⟩ :: (resolveLoop r rest rem2
            (store_hint_result st r p.id m.hint m.score [] [("source", "gemini")])).2) := by
      simp only [resolveLoop]
      rw [hpick]
    rw [hres]
    cases i with
    | zero =>
      simp only [List.get_eq_getElem, List.getElem_cons_zero, List.getD_cons_zero]
      rw [resolveLoop_score_frame r rest rem2 _ p.id hnd.1]
      exact store_score_self st r p.id m.hint m.score [] [("source", "gemini")]
    | succ j =>
      have hj : j < rest.length := by simpa using hi
      simp only [List.get_eq_getElem, List.getElem_cons_succ, List.getD_cons_succ]
      have hmem : rest[j].id ∈ rest.map (fun p => p.id) :=
        List.mem_map_of_mem _ (List.getElem_mem hj)
      have hneid : rest[j].id ≠ p.id := by
        intro he
        exact hnd.1 (he ▸ hmem)
      have hih := ih rem2 (store_hint_result st r p.id m.hint m.score [] [("source", "gemini")])
        hnd.2 (by simp at hlen; omega) j hj
      simp only [List.get_eq_getElem] at hih
      rw [hih, store_score_other st r p.id (rest[j].id) hneid m.hint m.score []
        [("source", "gemini")]]

/-- A fold whose every step preserves round, phase, order and the
id/score view of every player's record preserves them globally. -/
theorem foldl_preserves {β : Type} (step : GameState → β → GameState)
    (hstep : ∀ st b, (step st b).round = st.round ∧ (step st b).phase = st.phase ∧
      (step st b).player_order = st.player_order ∧
      (∀ k, (alookup k (step st b).players).map (fun p => (p.id, p.score))
        = (alookup k st.players).map (fun p => (p.id, p.score)))) :
    ∀ (l : List β) (st : GameState),
      (l.foldl step st).round = st.round ∧ (l.foldl step st).phase = st.phase ∧
      (l.foldl step st).player_order = st.player_order ∧
      (∀ k, (alookup k (l.foldl step st).players).map (fun p => (p.id, p.score))
        = (alookup k st.players).map (fun p => (p.id, p.score))) := by
  intro l
  induction l with
  | nil => intro st; exact ⟨rfl, rfl, rfl, fun k => rfl⟩
  | cons b rest ih =>
    intro st
    rw [List.foldl_cons]
    obtain ⟨h1, h2, h3, h4⟩ := ih (step st b)
    obtain ⟨g1, g2, g3, g4⟩ := hstep st b
    exact ⟨h1.trans g1, h2.trans g2, h3.trans g3, fun k => (h4 k).trans (g4 k)⟩


theorem ensure_missed_step_preserve (r : Nat) (st : GameState) (pid : String) :
    (ensure_missed_step r st pid).round = st.round ∧
    (ensure_missed_step r st pid).phase = st.phase ∧
    (ensure_missed_step r st pid).player_order = st.player_order ∧
    (∀ k, (alookup k (ensure_missed_step r st pid).players).map (fun p => (p.id, p.score))
      = (alookup k st.players).map (fun p => (p.id, p.score))) := by
  simp only [ensure_missed_step]
  by_cases hc : (alookup pid ((alookup r st.submissions).getD [])).isSome = true
  · rw [if_pos hc]
    exact ⟨rfl, rfl, rfl, fun k => rfl⟩
  · rw [if_neg hc]
    refine ⟨rfl, rfl, rfl, fun k => ?_⟩
    show (alookup k (aupdate pid (fun p => { p with last_word := none }) st.players)).map
        (fun p => (p.id, p.score)) = (alookup k st.players).map (fun p => (p.id, p.score))
    by_cases hk : k = pid
    · subst hk
      rw [alookup_aupdate_self]
      cases alookup k st.players <;> rfl
    · rw [alookup_aupdate_ne pid k hk]

theorem ensure_missed_preserve (s : GameState) :
    (ensure_missed_submissions s).round = s.round ∧
    (ensure_missed_submissions s).phase = s.phase ∧
    (ensure_missed_submissions s).player_order = s.player_order ∧
    (∀ k, (alookup k (ensure_missed_submissions s).players).map (fun p => (p.id, p.score))
      = (alookup k s.players).map (fun p => (p.id, p.score))) := by
  have key := foldl_preserves (ensure_missed_step s.round)
    (fun st pid => ensure_missed_step_preserve s.round st pid)
  simp only [ensure_missed_submissions]
  by_cases h0 : (alookup s.round s.submissions).isSome = true
  · rw [if_pos h0]
    exact key s.player_order s
  · rw [if_neg h0]
    obtain ⟨h1, h2, h3, h4⟩ :=
      key s.player_order { s with submissions := aset s.round [] s.submissions }
    exact ⟨h1, h2, h3, h4⟩

theorem finalize_prepared_preserve (now : Nat) (s : GameState) :
    (finalize_prepared now s).round = s.round ∧
    (finalize_prepared now s).player_order = s.player_order ∧
    (∀ k, (alookup k (finalize_prepared now s).players).map (fun p => (p.id, p.score))
      = (alookup k s.players).map (fun p => (p.id, p.score))) := by
  obtain ⟨h1, _, h3, h4⟩ :=
    ensure_missed_preserve (set_phase { s with timer_task := false } "resolution" none now)
  exact ⟨h1, h3, h4⟩

theorem playerScore_transfer (st s : GameState)
    (h : ∀ k, (alookup k st.players).map (fun p => (p.id, p.score))
      = (alookup k s.players).map (fun p => (p.id, p.score))) (k : String) :
    playerScore st k = playerScore s k := by
  unfold playerScore
  have hk := h k
  cases h1 : alookup k st.players <;> cases h2 : alookup k s.players <;>
    rw [h1, h2] at hk <;> simp_all

theorem list_players_ids_eq (st s : GameState) (horder : st.player_order = s.player_order)
    (h : ∀ k, (alookup k st.players).map (fun p => (p.id, p.score))
      = (alookup k s.players).map (fun p => (p.id, p.score))) :
    (list_players st).map (fun p => p.id) = (list_players s).map (fun p => p.id) := by
  unfold list_players
  rw [horder]
  generalize s.player_order = order
  induction order with
  | nil => rfl
  | cons pid rest ih =>
    have hk := h pid
    cases h1 : alookup pid st.players with
    | none =>
      cases h2 : alookup pid s.players with
      | none =>
        simp only [List.filterMap_cons, h1, h2]
        exact ih
      | some b => rw [h1, h2] at hk; simp at hk
    | some a =>
      cases h2 : alookup pid s.players with
      | none => rw [h1, h2] at hk; simp at hk
      | some b =>
        rw [h1, h2] at hk
        have hid : a.id = b.id := congrArg Prod.fst (Option.some.inj hk)
        simp only [List.filterMap_cons, h1, h2, List.map_cons]
        rw [hid, ih]

theorem map_id_get_eq : ∀ {l1 l2 : List Player},
    l1.map (fun p => p.id) = l2.map (fun p => p.id) →
    ∀ (i : Nat) (h1 : i < l1.length) (h2 : i < l2.length),
      (l1.get ⟨i, h1⟩).id = (l2.get ⟨i, h2⟩).id := by
  intro l1
  induction l1 with
  | nil => intro l2 h i h1 h2; exact absurd h1 (by simp)
  | cons a t ih =>
    intro l2 h i h1 h2
    cases l2 with
    | nil => exact absurd h2 (by simp)
    | cons b t2 =>
      simp only [List.map_cons] at h
      injection h with hab ht
      cases i with
      | zero => exact hab
      | succ n =>
        exact ih ht n (Nat.lt_of_succ_lt_succ h1) (Nat.lt_of_succ_lt_succ h2)

theorem finalize_round_guard
    (evalf : Nat → String → List (String × SubPayload) → List PlayerPayload →
      GeminiRoundEvaluation)
    (now r : Nat) (reason : String) (s : GameState)
    (hguard : s.round ≠ r ∨ s.phase ≠ "submission") :
    finalize_round evalf now r reason s = (s, 0, []) := by
  unfold finalize_round
  rw [if_pos hguard]

theorem finalize_round_go
    (evalf : Nat → String → List (String × SubPayload) → List PlayerPayload →
      GeminiRoundEvaluation)
    (now r : Nat) (reason : String) (s : GameState)
    (hround : s.round = r) (hphase : s.phase = "submission") :
    finalize_round evalf now r reason s = finalize_go evalf now r reason s := by
  unfold finalize_round
  rw [if_neg (by push_neg; exact ⟨hround, hphase⟩)]

theorem finalize_master (now r : Nat) (s3 : GameState) (ev : GeminiRoundEvaluation)
    (hlen : (list_players s3).length ≤ ev.results.length) :
    let res := resolveLoop r (list_players s3) ev.results s3
    let out : GameState × Nat × List StoreEvent :=
      ({ set_phase res.1 "discussion" (some DISCUSSION_SECONDS) now with timer_task := true },
       1, res.2)
    out.2.1 = 1 ∧
    out.2.2.map (fun e => e.pid) = (list_players s3).map (fun p => p.id) ∧
    out.1.phase = "discussion" ∧
    (((list_players s3).map (fun p => p.id)).Nodup →
      ∀ i (hi3 : i < (list_players s3).length),
        playerScore out.1 ((list_players s3).get ⟨i, hi3⟩).id
          = (playerScore s3 ((list_players s3).get ⟨i, hi3⟩).id).map
              (fun x => x + ((out.2.2.getD i { pid := "", score := 0 }).score))) := by
  intro res out
  refine ⟨rfl, ?_, rfl, ?_⟩
  · exact resolveLoop_events r _ _ _ hlen
  · intro hnd i hi3
    exact resolveLoop_score r (list_players s3) ev.results s3 hnd hlen i hi3

theorem finalize_go_spec
    (evalf : Nat → String → List (String × SubPayload) → List PlayerPayload →
      GeminiRoundEvaluation)
    (heval : ∀ ri sec subs po, (evalf ri sec subs po).results.length = po.length)
    (now r : Nat) (reason : String) (s : GameState) :
    (finalize_go evalf now r reason s).2.1 = 1 ∧
    (finalize_go evalf now r reason s).2.2.map (fun e => e.pid)
      = (list_players (finalize_prepared now s)).map (fun p => p.id) ∧
    (finalize_go evalf now r reason s).1.phase = "discussion" ∧
    (((list_players (finalize_prepared now s)).map (fun p => p.id)).Nodup →
      ∀ i (hi3 : i < (list_players (finalize_prepared now s)).length),
        playerScore (finalize_go evalf now r reason s).1
            ((list_players (finalize_prepared now s)).get ⟨i, hi3⟩).id
          = (playerScore (finalize_prepared now s)
              ((list_players (finalize_prepared now s)).get ⟨i, hi3⟩).id).map
              (fun x => x + (((finalize_go evalf now r reason s).2.2.getD i
                  { pid := "", score := 0 }).score))) := by
  have key := finalize_master now r (finalize_prepared now s)
    (evalf r ((get_secret (finalize_prepared now s) r).getD "")
      ((get_round_submissions (finalize_prepared now s) r).map
        (fun kv => (kv.1, ⟨kv.2.word, kv.2.flags⟩)))
      ((list_players (finalize_prepared now s)).map
        (fun p => ⟨p.id, p.name, p.connected⟩)))
    (by rw [heval]; simp)
  exact key

/-- C1: `finalize_round` is guarded and idempotent. If the stored round
differs from `r` or the phase is not `submission`, the call is a silent
no-op: the state is returned unchanged and the evaluator is called zero
times. Otherwise the call runs exactly one resolution sequence: one
evaluator call, one stored result per listed player (in roster order),
and — for a duplicate-free roster — exactly one score increment per
player, by that player's stored amount; a second trigger for the same
round then finds phase `discussion` and is a silent no-op. -/
theorem claim_C1_finalize_idempotent
    (evalf : Nat → String → List (String × SubPayload) → List PlayerPayload →
      GeminiRoundEvaluation)
    (heval : ∀ ri sec subs po, (evalf ri sec subs po).results.length = po.length)
    (now now2 r : Nat) (reason reason2 : String) (s : GameState) :
    (s.round ≠ r ∨ s.phase ≠ "submission" →
      finalize_round evalf now r reason s = (s, 0, [])) ∧
    (s.round = r → s.phase = "submission" →
      (finalize_round evalf now r reason s).2.1 = 1 ∧
      (finalize_round evalf now r reason s).2.2.map (fun e => e.pid)
        = (list_players s).map (fun p => p.id) ∧
      finalize_round evalf now2 r reason2 (finalize_round evalf now r reason s).1
        = ((finalize_round evalf now r reason s).1, 0, []) ∧
      (((list_players s).map (fun p => p.id)).Nodup →
        ∀ i (hi : i < (list_players s).length),
          playerScore (finalize_round evalf now r reason s).1
              ((list_players s).get ⟨i, hi⟩).id
            = (playerScore s ((list_players s).get ⟨i, hi⟩).id).map
                (fun x => x + (((finalize_round evalf now r reason s).2.2.getD i
                    { pid := "", score := 0 }).score)))) := by
  constructor
  · intro hguard
    exact finalize_round_guard evalf now r reason s hguard
  · intro hround hphase
    have hgo := finalize_round_go evalf now r reason s hround hphase
    obtain ⟨hpr_round, hpr_order, hpr_lookup⟩ := finalize_prepared_preserve now s
    have hids := list_players_ids_eq (finalize_prepared now s) s hpr_order hpr_lookup
    have hlenp : (list_players (finalize_prepared now s)).length
        = (list_players s).length := by
      have hcl := congrArg List.length hids
      simpa using hcl
    obtain ⟨hc1, hc2, hc3, hc4⟩ := finalize_go_spec evalf heval now r reason s
    refine ⟨?_, ?_, ?_, ?_⟩
    · rw [hgo]
      exact hc1
    · rw [hgo, hc2]
      exact hids
    · have hph : (finalize_round evalf now r reason s).1.phase = "discussion" := by
        rw [hgo]
        exact hc3
      exact finalize_round_guard evalf now2 r reason2 _
        (Or.inr (by rw [hph]; decide))
    · intro hnd i hi
      have hnd3 : ((list_players (finalize_prepared now s)).map (fun p => p.id)).Nodup := by
        rw [hids]
        exact hnd
      have hi3 : i < (list_players (finalize_prepared now s)).length := by
        rw [hlenp]
        exact hi
      have hkey := hc4 hnd3 i hi3
      have hid_eq := map_id_get_eq hids i hi3 hi
      rw [hid_eq] at hkey
      rw [hgo, hkey, playerScore_transfer (finalize_prepared now s) s hpr_lookup]

def evalfC1 : Nat → String → List (String × SubPayload) → List PlayerPayload →
    GeminiRoundEvaluation :=
  fun _ sec subs po => gemini_fallback_evaluation sec subs po

def subC1 : Submission :=
  { player_id := "a", word := "apple", flags := [], score := 0, hint := none, meta := [] }

def playersC1 : List (String × Player) :=
  [("a", { basePlayer "a" "Alice" with score := 3 }),
    ("b", { basePlayer "b" "Bob" with score := 5 })]

def stateC1 : GameState :=
  { max_rounds := 3
    players := playersC1
    player_order := ["a", "b"]
    round := 1
    phase := "submission"
    remaining_ms := 0
    timer_deadline := none
    timer_task := false
    submissions := [(1, [("a", subC1)])]
    secret_by_round := [(1, "azure")] }

theorem claim_C1_finalize_idempotent_witness :
    (finalize_round evalfC1 100 1 "timer" stateC1).2.1 = 1 ∧
    (finalize_round evalfC1 100 1 "timer" stateC1).2.2.map (fun e => e.pid)
      = (list_players stateC1).map (fun p => p.id) ∧
    finalize_round evalfC1 200 1 "all_submitted"
        (finalize_round evalfC1 100 1 "timer" stateC1).1
      = ((finalize_round evalfC1 100 1 "timer" stateC1).1, 0, []) ∧
    playerScore (finalize_round evalfC1 100 1 "timer" stateC1).1
        ((list_players stateC1).get ⟨0, by decide⟩).id
      = (playerScore stateC1 ((list_players stateC1).get ⟨0, by decide⟩).id).map
          (fun x => x + (((finalize_round evalfC1 100 1 "timer" stateC1).2.2.getD 0
              { pid := "", score := 0 }).score)) := by
  obtain ⟨-, h2⟩ := claim_C1_finalize_idempotent evalfC1
    (fun ri sec subs po => gemini_fallback_length sec subs po)
    100 200 1 "timer" "all_submitted" stateC1
  obtain ⟨ha, hb, hc, hd⟩ := h2 rfl rfl
  exact ⟨ha, hb, hc, hd (by decide) 0 (by decide)⟩
